import Mathlib

/-!
Verification development for the StemTube-Web multi-stem mixer.

The definitions below are a shallow embedding of the mixer's JavaScript
source code:

* `AudioEngine` (Web Audio backend, `src/unnamed/part_000`): stem loading,
  waveform extraction, `setupAudioNodes`, `play`, `pause`, `stop`,
  `seekToPosition`, `updatePlaybackPositions`, `handleStemEnded`,
  `updateSoloMuteStates`, `scratchAt` and the scratch-segment timeout;
* `TrackControls` (`src/unnamed/part_004`): `toggleSolo`, `toggleMute`,
  `updateVolume`, `updateTrackStatus`;
* `StemMixer` (`src/static/js/mixer/core.js`): `updateMaxDuration` and the
  zoom button handlers;
* `MobileAudioEngine` (media-element backend,
  `src/static/js/mixer/timeline.js`): `setStemVolume`, `setStemMuted`,
  `setStemSolo`, `updateStemAudio`.

Times, gains and volumes are modelled as rationals.  The Web Audio clock
(`audioContext.currentTime`) is passed explicitly to every operation that
reads it.  Each `AudioBufferSourceNode` is modelled by a `Source` record
carrying a ghost `startCount` so that the one-shot discipline of source
nodes can be stated; the engine state additionally carries a ghost list of
every source ever created together with its start count, and a list of
stem names whose `ended` callbacks have been queued by a stop issued while
the `onended` handler was still attached.
-/

namespace StemTube

/-- One `AudioBufferSourceNode`.  `startCount` counts how many times
`start` has been invoked on this physical node; `onended` records whether
the ended handler installed by `setupAudioNodes` is still attached;
`stopped` records that the node has stopped without its owning reference
having been cleared. -/
structure Source where
  id : Nat
  startCount : Nat
  startOffset : ℚ
  onended : Bool
  stopped : Bool
deriving Repr, DecidableEq

/-- One stem entry of `mixer.stems`, as initialised by
`AudioEngine.loadStem`.  `buffer` is the decoded audio buffer, reduced to
its duration; `gainNode` is the stem's gain node, reduced to its gain
value. -/
structure Stem where
  name : String
  buffer : Option ℚ
  source : Option Source
  gainNode : Option ℚ
  volume : ℚ
  pan : ℚ
  muted : Bool
  solo : Bool
  active : Bool
deriving Repr, DecidableEq

/-- The mixer-session state shared by `StemMixer` and `AudioEngine`:
transport fields, the stem table, zoom levels, and the two ghost
components (`pending` ended callbacks and the `ghost` source log). -/
structure EngineState where
  stems : List Stem
  isPlaying : Bool
  currentTime : ℚ
  maxDuration : ℚ
  startTime : ℚ
  isPausing : Bool
  isScratchMode : Bool
  playhead : ℚ
  pending : List String
  nextId : Nat
  ghost : List (Nat × Nat)
  zoomH : ℚ
  zoomV : ℚ
deriving Repr, DecidableEq

/-- Embeds `Object.values(stems).some(stem => stem.solo)`. -/
def hasSolo (stems : List Stem) : Bool :=
  stems.any (fun s => s.solo)

/-- Embeds `this.mixer.stems[name]` lookup. -/
def findStem (stems : List Stem) (name : String) : Option Stem :=
  stems.find? (fun s => s.name = name)

/-- Embeds `this.mixer.stems[name] = entry`: replace an existing entry of the
same name, otherwise add a fresh one. -/
def setStemEntry (stems : List Stem) (entry : Stem) : List Stem :=
  if stems.any (fun t => t.name = entry.name) then
    stems.map (fun t => if t.name = entry.name then entry else t)
  else stems ++ [entry]

/-- Update the entry of the given name in place. -/
def mapStem (stems : List Stem) (name : String) (f : Stem → Stem) : List Stem :=
  stems.map (fun s => if s.name = name then f s else s)

/-- The teardown performed on one stem by `play`, `pause`,
`seekToPosition`, `scratchAt` and `startScratchMode`: if the stem has a
source, its `onended` handler is removed, the source is stopped (errors
from an already-stopped source are swallowed) and the reference is
cleared.  Because the handler is removed first, no ended callback is
queued. -/
def stemClearAndStop (s : Stem) : Stem :=
  match s.source with
  | none => s
  | some _ => { s with source := none }

/-- The source object created by `setupAudioNodes` before `start` is
invoked on it: fresh node, handler attached, never started. -/
def mkSource (nid : Nat) : Source :=
  { id := nid, startCount := 0, startOffset := 0, onended := true, stopped := false }

/-- Embeds `source.start(0, offset, ...)`. -/
def startSource (s : Source) (offset : ℚ) : Source :=
  { s with startCount := s.startCount + 1, startOffset := offset }

/-- The per-stem loop shared by `play` and `playScratchSegment`: for every
stem with `stem.active && stem.buffer`, create fresh audio nodes
(`setupAudioNodes`, which installs the ended handler and sets the gain
node to `muted ? 0 : volume`), optionally remove the ended handler again
(`playScratchSegment` does, `play` does not), and start the new source at
offset `min(position, stem.buffer.duration)`.  Every created source is
recorded in the ghost log with its start count. -/
def startStems (handler : Bool) (t : ℚ) :
    List Stem → Nat → List (Nat × Nat) → List Stem × Nat × List (Nat × Nat)
  | [], nid, g => ([], nid, g)
  | s :: rest, nid, g =>
    if s.active && s.buffer.isSome then
      let dur := s.buffer.getD 0
      let created := mkSource nid
      let created := if handler then created else { created with onended := false }
      let src := startSource created (min t dur)
      let s1 := { s with source := some src,
                         gainNode := some (if s.muted then 0 else s.volume) }
      let r := startStems handler t rest (nid + 1) (g ++ [(src.id, src.startCount)])
      (s1 :: r.1, r.2.1, r.2.2)
    else
      let r := startStems handler t rest nid g
      (s :: r.1, r.2.1, r.2.2)

/-- Embeds `AudioEngine.play`: set the clock reference
`startTime = audioContext.currentTime - mixer.currentTime`, tear down
every existing source (handler removed first), then create and start a
fresh source for every active loaded stem at the current position.  `c`
is the audio-context clock at the time of the call. -/
def play (c : ℚ) (st : EngineState) : EngineState :=
  let st1 := { st with startTime := c - st.currentTime }
  let st2 := { st1 with stems := st1.stems.map stemClearAndStop }
  let r := startStems true st2.currentTime st2.stems st2.nextId st2.ghost
  { st2 with stems := r.1, nextId := r.2.1, ghost := r.2.2, isPlaying := true }

/-- Embeds `AudioEngine.pause`: capture the position from the clock if playing,
tear down all sources with their ended handlers removed first, stop the
animation loop and reposition the playhead at the captured position. -/
def pause (c : ℚ) (st : EngineState) : EngineState :=
  let st1 := if st.isPlaying then { st with currentTime := c - st.startTime } else st
  let st2 := { st1 with stems := st1.stems.map stemClearAndStop }
  { st2 with isPlaying := false, playhead := st2.currentTime }

/-- Embeds `AudioEngine.stop`: stop every source *without* removing its ended
handler (the code comments that the handler may be kept here), so each
stopped live source with an attached handler queues its ended callback;
then reset the transport to the stopped state. -/
def stopOp (st : EngineState) : EngineState :=
  let fired := st.stems.filterMap (fun s =>
    match s.source with
    | some src => if src.onended && !src.stopped then some s.name else none
    | none => none)
  { st with
    stems := st.stems.map (fun s =>
      match s.source with
      | none => s
      | some _ => { s with source := none }),
    pending := st.pending ++ fired,
    isPlaying := false, currentTime := 0, playhead := 0 }

/-- Embeds `AudioEngine.seekToPosition`: clamp the requested position to
`[0, maxDuration]`, tear down all sources (handlers removed first),
reposition the playhead; if playing, set `currentTime` to the target just
before restarting via `play` (the 20 ms settle delay is collapsed), else
just update `currentTime`. -/
def seekToPosition (p c : ℚ) (st : EngineState) : EngineState :=
  let newPos := max 0 (min p st.maxDuration)
  let st1 := { st with stems := st.stems.map stemClearAndStop, playhead := newPos }
  if st1.isPlaying then
    play c { st1 with currentTime := newPos }
  else
    { st1 with currentTime := newPos }

/-- Embeds `AudioEngine.updatePlaybackPositions` (one render-loop tick): if not
playing do nothing; otherwise recompute `currentTime` from the clock and
either stop (when `currentTime >= maxDuration`) or move the playhead. -/
def updatePlaybackPositions (c : ℚ) (st : EngineState) : EngineState :=
  if !st.isPlaying then st
  else
    let st1 := { st with currentTime := c - st.startTime }
    if st1.maxDuration ≤ st1.currentTime then stopOp st1
    else { st1 with playhead := st1.currentTime }

/-- Embeds `AudioEngine.handleStemEnded`: clear the stem's source; unless a pause
is in progress, check whether every active stem's source is gone and only
then transition the whole session to the stopped state. -/
def handleStemEnded (name : String) (st : EngineState) : EngineState :=
  let stems1 := mapStem st.stems name (fun s => { s with source := none })
  let st1 := { st with stems := stems1 }
  if st.isPausing then st1
  else if stems1.all (fun s => !s.active || s.source.isNone) then
    { st1 with isPlaying := false, currentTime := 0, playhead := 0 }
  else st1

/-- The browser delivering the natural end-of-buffer event for a stem's
source: the installed handler (`handleStemEnded`) runs only if it is
still attached; a source whose handler was removed just stops, its
reference staying in place. -/
def naturalEnd (name : String) (st : EngineState) : EngineState :=
  match findStem st.stems name with
  | none => st
  | some s =>
    match s.source with
    | none => st
    | some src =>
      if src.stopped then st
      else if src.onended then handleStemEnded name st
      else { st with stems := (mapStem st.stems name
               (fun t => { t with source := some { src with stopped := true } })) }

/-- The browser delivering a queued ended callback (queued by a
programmatic stop that left the handler attached). -/
def flushEnded (name : String) (st : EngineState) : EngineState :=
  if st.pending.contains name then
    handleStemEnded name { st with pending := st.pending.erase name }
  else st

/-- Embeds `AudioEngine.updateSoloMuteStates`: recompute `hasSolo` over all
stems; for every stem that has a gain node, set its gain to
`hasSolo ? (solo ? volume : 0) : (muted ? 0 : volume)` and push the same
audibility value into the stem's `active` flag through
`TrackControls.updateTrackStatus` (which writes
`mixer.stems[name].active = active`).  Stems without a gain node are
skipped entirely. -/
def updateSoloMuteStates (st : EngineState) : EngineState :=
  let hs := hasSolo st.stems
  { st with stems := st.stems.map (fun s =>
      match s.gainNode with
      | none => s
      | some _ =>
        { s with
          gainNode := some (if hs then (if s.solo then s.volume else 0)
                            else (if s.muted then 0 else s.volume)),
          active := if hs then s.solo else !s.muted }) }

/-- Embeds `TrackControls.toggleSolo`: flip the stem's solo flag, then re-derive
all gains. -/
def toggleSolo (name : String) (st : EngineState) : EngineState :=
  match findStem st.stems name with
  | none => st
  | some _ =>
    updateSoloMuteStates
      { st with stems := mapStem st.stems name (fun s => { s with solo := !s.solo }) }

/-- Embeds `TrackControls.toggleMute`: flip the stem's muted flag, then re-derive
all gains. -/
def toggleMute (name : String) (st : EngineState) : EngineState :=
  match findStem st.stems name with
  | none => st
  | some _ =>
    updateSoloMuteStates
      { st with stems := mapStem st.stems name (fun s => { s with muted := !s.muted }) }

/-- The per-stem mutation performed by `TrackControls.updateVolume`:
store the new volume; if the stem has a gain node and is not muted, write
the value straight into the gain node (solo state of other stems is not
consulted here). -/
def updVolStem (v : ℚ) (s : Stem) : Stem :=
  let s1 := { s with volume := v }
  match s1.gainNode with
  | none => s1
  | some _ => if s1.muted then s1 else { s1 with gainNode := some v }

/-- Embeds `TrackControls.updateVolume`. -/
def updateVolume (name : String) (v : ℚ) (st : EngineState) : EngineState :=
  match findStem st.stems name with
  | none => st
  | some _ =>
    { st with stems := mapStem st.stems name (updVolStem v) }

/-- Embeds `AudioEngine.scratchAt`: clamp the position, move playhead and
`currentTime` there, tear down all sources (handlers removed first) and
start a short burst per active stem via `playScratchSegment`, which
removes the ended handler of each fresh source before starting it. -/
def scratchAt (p : ℚ) (st : EngineState) : EngineState :=
  let newPos := max 0 (min p st.maxDuration)
  let st1 := { st with playhead := newPos, currentTime := newPos }
  let st2 := { st1 with stems := st1.stems.map stemClearAndStop }
  let r := startStems false newPos st2.stems st2.nextId st2.ghost
  { st2 with stems := r.1, nextId := r.2.1, ghost := r.2.2 }

/-- The `setTimeout` scheduled by `playScratchSegment`: stop whatever
source the stem currently holds (handler removed first), leaving the
reference in place. -/
def scratchSegmentStop (name : String) (st : EngineState) : EngineState :=
  { st with stems := mapStem st.stems name (fun s =>
      match s.source with
      | none => s
      | some src => { s with source := some { src with onended := false, stopped := true } }) }

/-- Embeds `AudioEngine.startScratchMode`: enter scratch mode; if playing, stop
the animation, clear `isPlaying` and tear down all sources (handlers
removed first). -/
def startScratchMode (st : EngineState) : EngineState :=
  let st1 := { st with isScratchMode := true }
  if st1.isPlaying then
    { st1 with isPlaying := false, stems := st1.stems.map stemClearAndStop }
  else st1

/-- Embeds `AudioEngine.stopScratchMode`. -/
def stopScratchMode (st : EngineState) : EngineState :=
  { st with isScratchMode := false }

/-- The stem entry as initialised at the top of `AudioEngine.loadStem`,
before the fetch: no buffer, no nodes, unit volume, centred, neither
muted nor solo, and `active: true`. -/
def freshStem (name : String) : Stem :=
  { name := name, buffer := none, source := none, gainNode := none,
    volume := 1, pan := 0, muted := false, solo := false, active := true }

/-- Embeds `AudioEngine.loadStem` when the fetch answers HTTP 404: the entry has
already been created, the 404 is logged and the function returns without
raising; the entry keeps `buffer = null` and `active = true`. -/
def loadStem404 (name : String) (st : EngineState) : EngineState :=
  { st with stems := setStemEntry st.stems (freshStem name) }

/-- Embeds `AudioEngine.loadStem` on success: the fresh entry is created, then
the decoded buffer (reduced to its duration) is stored on it. -/
def loadStemOk (name : String) (dur : ℚ) (st : EngineState) : EngineState :=
  let st1 := { st with stems := setStemEntry st.stems (freshStem name) }
  { st1 with stems := mapStem st1.stems name (fun s => { s with buffer := some dur }) }

/-- Embeds `StemMixer.updateMaxDuration`: the maximum of `stem.buffer.duration`
over stems that have a buffer, starting from 0. -/
def computeMaxDuration (stems : List Stem) : ℚ :=
  stems.foldl (fun m s =>
    match s.buffer with
    | some d => if m < d then d else m
    | none => m) 0

/-- Embeds `StemMixer.updateMaxDuration` as a state update. -/
def updateMaxDuration (st : EngineState) : EngineState :=
  { st with maxDuration := computeMaxDuration st.stems }

/-- Zoom button handlers from `StemMixer.setupEventListeners`. -/
def zoomInH (st : EngineState) : EngineState :=
  { st with zoomH := min 10 (st.zoomH * (6 / 5)) }

def zoomOutH (st : EngineState) : EngineState :=
  { st with zoomH := max (1 / 2) (st.zoomH / (6 / 5)) }

def zoomInV (st : EngineState) : EngineState :=
  { st with zoomV := min 10 (st.zoomV * (6 / 5)) }

def zoomOutV (st : EngineState) : EngineState :=
  { st with zoomV := max (1 / 2) (st.zoomV / (6 / 5)) }

def zoomReset (st : EngineState) : EngineState :=
  { st with zoomH := 1, zoomV := 1 }

/-- The position the engine reports: `audioContext.currentTime - startTime`
while playing (as read by `pause` and by every render tick), the stored
`currentTime` otherwise. -/
def currentPosition (c : ℚ) (st : EngineState) : ℚ :=
  if st.isPlaying then c - st.startTime else st.currentTime

/-- The constructor state of `StemMixer` and `AudioEngine`. -/
def initState : EngineState :=
  { stems := [], isPlaying := false, currentTime := 0, maxDuration := 0,
    startTime := 0, isPausing := false, isScratchMode := false, playhead := 0,
    pending := [], nextId := 0, ghost := [], zoomH := 1, zoomV := 1 }

/-- Every externally triggerable event of the session: transport and
control-surface calls, load completions, render ticks, the scratch-burst
timeout, and the browser's ended notifications. -/
inductive Op where
  | play (c : ℚ)
  | pause (c : ℚ)
  | stop
  | seek (p c : ℚ)
  | tick (c : ℚ)
  | scratchStart
  | scratch (p : ℚ)
  | scratchEnd
  | segStop (name : String)
  | ended (name : String)
  | flush (name : String)
  | solo (name : String)
  | mute (name : String)
  | volume (name : String) (v : ℚ)
  | load404 (name : String)
  | loadOk (name : String) (d : ℚ)
  | maxDur
  | zinH
  | zoutH
  | zinV
  | zoutV
  | zreset
deriving Repr, DecidableEq

/-- Dispatch one event to its handler. -/
def step (o : Op) (st : EngineState) : EngineState :=
  match o with
  | .play c => play c st
  | .pause c => pause c st
  | .stop => stopOp st
  | .seek p c => seekToPosition p c st
  | .tick c => updatePlaybackPositions c st
  | .scratchStart => startScratchMode st
  | .scratch p => scratchAt p st
  | .scratchEnd => stopScratchMode st
  | .segStop n => scratchSegmentStop n st
  | .ended n => naturalEnd n st
  | .flush n => flushEnded n st
  | .solo n => toggleSolo n st
  | .mute n => toggleMute n st
  | .volume n v => updateVolume n v st
  | .load404 n => loadStem404 n st
  | .loadOk n d => loadStemOk n d st
  | .maxDur => updateMaxDuration st
  | .zinH => zoomInH st
  | .zoutH => zoomOutH st
  | .zinV => zoomInV st
  | .zoutV => zoomOutV st
  | .zreset => zoomReset st

/-- Run a sequence of events. -/
def run : List Op → EngineState → EngineState
  | [], st => st
  | o :: rest, st => run rest (step o st)

/-!  `AudioEngine.extractWaveformData` (waveform summarization). -/

/-- The envelope computed by `extractWaveformData` from the first
channel's samples: `numberOfSamples = min(length, 2000)` buckets,
`blockSize = floor(length / numberOfSamples)`, bucket `i` holding
`blockSum / blockSize` where `blockSum` adds `|sample|` over the indices
`i*blockSize + j` with `j < blockSize` that are still in range. -/
def waveformData (samples : List ℚ) : List ℚ :=
  let len := samples.length
  let numberOfSamples := min len 2000
  let blockSize := len / numberOfSamples
  (List.range numberOfSamples).map (fun i =>
    ((((List.range blockSize).filter (fun j => i * blockSize + j < len)).map
        (fun j => |samples.getD (i * blockSize + j) 0|)).sum) / (blockSize : ℚ))

/-!  `MobileAudioEngine` (media-element backend,
`src/static/js/mixer/timeline.js`). -/

/-- One entry of `MobileAudioEngine.audioElements`: per-stem mixing flags
plus the underlying HTML5 media element's `volume` and `muted`
properties (`lastVolume` is the iOS bookkeeping field). -/
structure MStem where
  name : String
  volume : ℚ
  pan : ℚ
  muted : Bool
  solo : Bool
  audioVolume : ℚ
  audioMuted : Bool
  lastVolume : ℚ
deriving Repr, DecidableEq

/-- The mobile engine state used by the solo/mute/volume paths. -/
structure MEngine where
  stems : List MStem
  masterVolume : ℚ
  isIOS : Bool
deriving Repr, DecidableEq

/-- Embeds `Object.values(this.audioElements).some(s => s.solo)`. -/
def mHasSolo (stems : List MStem) : Bool :=
  stems.any (fun s => s.solo)

/-- The body of `MobileAudioEngine.updateStemAudio` applied to the named
stem: `finalVolume = volume * masterVolume`, zeroed when
`shouldBeMuted = muted || (hasSolo && !solo)`; on iOS only the element's
`muted` flag is driven, elsewhere the element's `volume` is set to the
clamped final volume and `muted` to `shouldBeMuted`. -/
def refreshStem (hs : Bool) (mv : ℚ) (ios : Bool) (s : MStem) : MStem :=
  let sbm := s.muted || (hs && !s.solo)
  let fv := if sbm then 0 else s.volume * mv
  if ios then
    { s with audioMuted := sbm || decide (fv = 0), lastVolume := fv }
  else
    { s with audioVolume := max 0 (min 1 fv), audioMuted := sbm }

/-- Embeds `MobileAudioEngine.updateStemAudio`. -/
def updateStemAudio (name : String) (e : MEngine) : MEngine :=
  match e.stems.find? (fun s => s.name = name) with
  | none => e
  | some _ =>
    { e with stems := (e.stems.map (fun s =>
        if s.name = name then refreshStem (mHasSolo e.stems) e.masterVolume e.isIOS s
        else s)) }

/-- Embeds `MobileAudioEngine.setStemVolume`: store the volume, refresh that
stem's element. -/
def setStemVolume (name : String) (v : ℚ) (e : MEngine) : MEngine :=
  match e.stems.find? (fun s => s.name = name) with
  | none => e
  | some _ =>
    updateStemAudio name
      { e with stems := (e.stems.map (fun s =>
          if s.name = name then { s with volume := v } else s)) }

/-- Embeds `MobileAudioEngine.setStemMuted`: store the flag, refresh that stem's
element only. -/
def setStemMuted (name : String) (m : Bool) (e : MEngine) : MEngine :=
  match e.stems.find? (fun s => s.name = name) with
  | none => e
  | some _ =>
    updateStemAudio name
      { e with stems := (e.stems.map (fun s =>
          if s.name = name then { s with muted := m } else s)) }

/-- The `Object.keys(this.audioElements).forEach(n => updateStemAudio(n))`
loop of `setStemSolo` (and `setMasterVolume`). -/
def refreshAll (e : MEngine) : MEngine :=
  (e.stems.map (fun s => s.name)).foldl (fun acc n => updateStemAudio n acc) e

/-- Embeds `MobileAudioEngine.setStemSolo`: store the flag, then refresh every
stem's element (`Object.keys(this.audioElements).forEach`). -/
def setStemSolo (name : String) (v : Bool) (e : MEngine) : MEngine :=
  match e.stems.find? (fun s => s.name = name) with
  | none => e
  | some _ =>
    refreshAll { e with stems := (e.stems.map (fun s =>
        if s.name = name then { s with solo := v } else s)) }

/-- What the media element actually plays (non-iOS path): silence when
the element is muted, its `volume` property otherwise. -/
def mEffectiveGain (s : MStem) : ℚ :=
  if s.audioMuted then 0 else s.audioVolume

/-- Modelled from the spec: the solo/mute algorithm of section 4.1,
`hasSolo = OR over all stems of stem.solo`; per-stem audibility
`hasSolo ? solo : !muted`; effective gain `audibility ? volume : 0`.
This is the *specification-side* formula the claims compare the code
against. -/
def specStemGain (hs solo muted : Bool) (volume : ℚ) : ℚ :=
  if (if hs then solo else !muted) then volume else 0

/-- The gain value the media-element backend derives for a stem (before
clamping, with the master-volume factor): zero when
`muted || (hasSolo && !solo)`, the scaled volume otherwise. -/
def mobileDerivedGain (hs : Bool) (mv : ℚ) (s : MStem) : ℚ :=
  if s.muted || (hs && !s.solo) then 0 else s.volume * mv

/-!  C8 — waveform summarization. -/

/-- C8: on any input of length `L`, `extractWaveformData` returns an
envelope of length exactly `min L 2000`, and (with
`B = ⌊L / min L 2000⌋`) bucket `i` is the mean absolute amplitude of the
full contiguous block `[i*B, (i+1)*B)` — the in-range guard of the inner
loop never truncates a block, so the only dropped samples are the
trailing `L - B * min L 2000` ones.  The envelope is a pure function of
the input, hence deterministic. -/
theorem waveform_envelope_spec (samples : List ℚ) :
    (waveformData samples).length = min samples.length 2000 ∧
    ∀ i, i < min samples.length 2000 →
      (waveformData samples).getD i 0 =
        (((List.range (samples.length / min samples.length 2000)).map
            (fun j => |samples.getD (i * (samples.length / min samples.length 2000) + j) 0|)).sum)
          / ((samples.length / min samples.length 2000 : ℕ) : ℚ) := by
  constructor
  · simp [waveformData]
  · intro i hi
    have hfull : (List.range (samples.length / min samples.length 2000)).filter
        (fun j => decide (i * (samples.length / min samples.length 2000) + j < samples.length))
        = List.range (samples.length / min samples.length 2000) := by
      apply List.filter_eq_self.mpr
      intro j hj
      have hj' : j < samples.length / min samples.length 2000 := List.mem_range.mp hj
      have h1 : i + 1 ≤ min samples.length 2000 := hi
      have h2 : (i + 1) * (samples.length / min samples.length 2000)
          ≤ (min samples.length 2000) * (samples.length / min samples.length 2000) :=
        Nat.mul_le_mul_right _ h1
      have h3 : (min samples.length 2000) * (samples.length / min samples.length 2000)
          ≤ samples.length := by
        rw [Nat.mul_comm]
        exact Nat.div_mul_le_self samples.length _
      have h4 : i * (samples.length / min samples.length 2000) + j
          < (i + 1) * (samples.length / min samples.length 2000) := by
        have := Nat.add_lt_add_left hj' (i * (samples.length / min samples.length 2000))
        simpa [Nat.succ_mul] using this
      exact decide_eq_true (lt_of_lt_of_le h4 (le_trans h2 h3))
    unfold waveformData
    rw [List.getD_eq_getElem?_getD, List.getElem?_map, List.getElem?_range hi]
    simp [hfull]

/-!  C9 — render tick past the end of the longest stem. -/

/-- C9: a render-loop tick (`updatePlaybackPositions`) taken while
playing, at a clock instant whose derived position has reached
`maxDuration`, goes through `stop`: afterwards `isPlaying` is false,
`currentTime` is 0 and the playhead sits at 0. -/
theorem tick_past_end_stops (st : EngineState) (c : ℚ)
    (hp : st.isPlaying = true) (hge : st.maxDuration ≤ c - st.startTime) :
    (updatePlaybackPositions c st).isPlaying = false ∧
    (updatePlaybackPositions c st).currentTime = 0 ∧
    (updatePlaybackPositions c st).playhead = 0 := by
  simp [updatePlaybackPositions, hp, stopOp, hge]

/-- Witness for C9 at a concrete state: one loaded stem of duration 10,
playing with `startTime = 0`, ticked at clock 11. -/
theorem tick_past_end_stops_witness :
    (updatePlaybackPositions 11 { initState with isPlaying := true, maxDuration := 10 }).isPlaying
      = false ∧
    (updatePlaybackPositions 11 { initState with isPlaying := true, maxDuration := 10 }).currentTime
      = 0 ∧
    (updatePlaybackPositions 11 { initState with isPlaying := true, maxDuration := 10 }).playhead
      = 0 :=
  tick_past_end_stops { initState with isPlaying := true, maxDuration := 10 } 11 rfl (by norm_num [initState])

/-!  C4 — seek / pause / play round trip. -/

/-- C4: for any state and any target `t`, `seek(t); pause(); play()`
(the pause issued at the same clock instant the seek completed, the play
at an arbitrary later clock `c2`) resumes at exactly
`clamp(t, 0, maxDuration)`, independent of the wall-clock time spent
paused; moreover `play` establishes
`startTime = clock.now - currentTime`, so a position read `d` seconds
after resuming yields the resume position plus `d`. -/
theorem seek_pause_play_roundtrip (st : EngineState) (t c c2 d : ℚ) :
    currentPosition c2 (play c2 (pause c (seekToPosition t c st)))
      = max 0 (min t st.maxDuration) ∧
    (play c2 (pause c (seekToPosition t c st))).startTime
      = c2 - (play c2 (pause c (seekToPosition t c st))).currentTime ∧
    currentPosition (c2 + d) (play c2 (pause c (seekToPosition t c st)))
      = max 0 (min t st.maxDuration) + d := by
  by_cases h : st.isPlaying <;>
    simp [seekToPosition, pause, play, currentPosition, h] <;> ring

/-- Witness for C8 on the concrete input `[1, -1]`: `L = 2`, two buckets
of one sample each, bucket 0 holding `|1| / 1 = 1`. -/
theorem waveform_envelope_spec_witness :
    (waveformData [(1 : ℚ), -1]).getD 0 0 = 1 := by
  have h := (waveform_envelope_spec [(1 : ℚ), -1]).2 0 (by norm_num)
  rw [h]
  norm_num [List.range_succ]

/-!  C10 — zoom bounds. -/

/-- The invariant claimed for the zoom controls: both factors stay within
`[0.5, 10]`. -/
def zoomInv (st : EngineState) : Prop :=
  (1 / 2 ≤ st.zoomH ∧ st.zoomH ≤ 10) ∧ (1 / 2 ≤ st.zoomV ∧ st.zoomV ≤ 10)

lemma handleStemEnded_zoom (name : String) (st : EngineState) :
    (handleStemEnded name st).zoomH = st.zoomH ∧ (handleStemEnded name st).zoomV = st.zoomV := by
  unfold handleStemEnded
  dsimp only
  split
  · exact ⟨rfl, rfl⟩
  · split <;> exact ⟨rfl, rfl⟩

lemma naturalEnd_zoom (name : String) (st : EngineState) :
    (naturalEnd name st).zoomH = st.zoomH ∧ (naturalEnd name st).zoomV = st.zoomV := by
  unfold naturalEnd
  split
  · exact ⟨rfl, rfl⟩
  · split
    · exact ⟨rfl, rfl⟩
    · split
      · exact ⟨rfl, rfl⟩
      · split
        · exact handleStemEnded_zoom name st
        · exact ⟨rfl, rfl⟩

lemma flushEnded_zoom (name : String) (st : EngineState) :
    (flushEnded name st).zoomH = st.zoomH ∧ (flushEnded name st).zoomV = st.zoomV := by
  unfold flushEnded
  split
  · exact handleStemEnded_zoom name _
  · exact ⟨rfl, rfl⟩

lemma pause_zoom (c : ℚ) (st : EngineState) :
    (pause c st).zoomH = st.zoomH ∧ (pause c st).zoomV = st.zoomV := by
  unfold pause
  split <;> exact ⟨rfl, rfl⟩

lemma play_zoom (c : ℚ) (st : EngineState) :
    (play c st).zoomH = st.zoomH ∧ (play c st).zoomV = st.zoomV :=
  ⟨rfl, rfl⟩

lemma stopOp_zoom (st : EngineState) :
    (stopOp st).zoomH = st.zoomH ∧ (stopOp st).zoomV = st.zoomV :=
  ⟨rfl, rfl⟩

lemma seekToPosition_zoom (p c : ℚ) (st : EngineState) :
    (seekToPosition p c st).zoomH = st.zoomH ∧ (seekToPosition p c st).zoomV = st.zoomV := by
  simp only [seekToPosition]
  split <;> exact ⟨rfl, rfl⟩

lemma updatePlaybackPositions_zoom (c : ℚ) (st : EngineState) :
    (updatePlaybackPositions c st).zoomH = st.zoomH ∧
    (updatePlaybackPositions c st).zoomV = st.zoomV := by
  simp only [updatePlaybackPositions]
  split
  · exact ⟨rfl, rfl⟩
  · split <;> exact ⟨rfl, rfl⟩

lemma startScratchMode_zoom (st : EngineState) :
    (startScratchMode st).zoomH = st.zoomH ∧ (startScratchMode st).zoomV = st.zoomV := by
  simp only [startScratchMode]
  split <;> exact ⟨rfl, rfl⟩

lemma toggleSolo_zoom (name : String) (st : EngineState) :
    (toggleSolo name st).zoomH = st.zoomH ∧ (toggleSolo name st).zoomV = st.zoomV := by
  unfold toggleSolo
  cases hf : findStem st.stems name <;> exact ⟨rfl, rfl⟩

lemma toggleMute_zoom (name : String) (st : EngineState) :
    (toggleMute name st).zoomH = st.zoomH ∧ (toggleMute name st).zoomV = st.zoomV := by
  unfold toggleMute
  cases hf : findStem st.stems name <;> exact ⟨rfl, rfl⟩

lemma updateVolume_zoom (name : String) (v : ℚ) (st : EngineState) :
    (updateVolume name v st).zoomH = st.zoomH ∧ (updateVolume name v st).zoomV = st.zoomV := by
  unfold updateVolume
  cases hf : findStem st.stems name <;> exact ⟨rfl, rfl⟩

/-- Every event preserves the zoom-bounds invariant: the three zoom-in /
zoom-out handlers cap and floor their multiplicative updates at 10 and
0.5, reset restores 1.0, and no other event writes the zoom fields. -/
lemma zoomInv_step (o : Op) (st : EngineState) (h : zoomInv st) : zoomInv (step o st) := by
  have hin : ∀ z : ℚ, 1 / 2 ≤ z → z ≤ 10 →
      1 / 2 ≤ min 10 (z * (6 / 5)) ∧ min 10 (z * (6 / 5)) ≤ 10 := by
    intro z h1 h2
    exact ⟨le_min (by norm_num) (by nlinarith), min_le_left _ _⟩
  have hout : ∀ z : ℚ, 1 / 2 ≤ z → z ≤ 10 →
      1 / 2 ≤ max (1 / 2) (z / (6 / 5)) ∧ max (1 / 2) (z / (6 / 5)) ≤ 10 := by
    intro z h1 h2
    refine ⟨le_max_left _ _, max_le (by norm_num) ?_⟩
    rw [div_le_iff₀ (by norm_num)]
    nlinarith
  obtain ⟨⟨hH1, hH2⟩, ⟨hV1, hV2⟩⟩ := h
  cases o with
  | play c => exact ⟨(play_zoom c st).1 ▸ ⟨hH1, hH2⟩, (play_zoom c st).2 ▸ ⟨hV1, hV2⟩⟩
  | pause c => exact ⟨(pause_zoom c st).1 ▸ ⟨hH1, hH2⟩, (pause_zoom c st).2 ▸ ⟨hV1, hV2⟩⟩
  | stop => exact ⟨⟨hH1, hH2⟩, ⟨hV1, hV2⟩⟩
  | seek p c =>
    exact ⟨(seekToPosition_zoom p c st).1 ▸ ⟨hH1, hH2⟩,
           (seekToPosition_zoom p c st).2 ▸ ⟨hV1, hV2⟩⟩
  | tick c =>
    exact ⟨(updatePlaybackPositions_zoom c st).1 ▸ ⟨hH1, hH2⟩,
           (updatePlaybackPositions_zoom c st).2 ▸ ⟨hV1, hV2⟩⟩
  | scratchStart =>
    exact ⟨(startScratchMode_zoom st).1 ▸ ⟨hH1, hH2⟩, (startScratchMode_zoom st).2 ▸ ⟨hV1, hV2⟩⟩
  | scratch p => exact ⟨⟨hH1, hH2⟩, ⟨hV1, hV2⟩⟩
  | scratchEnd => exact ⟨⟨hH1, hH2⟩, ⟨hV1, hV2⟩⟩
  | segStop n => exact ⟨⟨hH1, hH2⟩, ⟨hV1, hV2⟩⟩
  | ended n =>
    exact ⟨(naturalEnd_zoom n st).1 ▸ ⟨hH1, hH2⟩, (naturalEnd_zoom n st).2 ▸ ⟨hV1, hV2⟩⟩
  | flush n =>
    exact ⟨(flushEnded_zoom n st).1 ▸ ⟨hH1, hH2⟩, (flushEnded_zoom n st).2 ▸ ⟨hV1, hV2⟩⟩
  | solo n =>
    exact ⟨(toggleSolo_zoom n st).1 ▸ ⟨hH1, hH2⟩, (toggleSolo_zoom n st).2 ▸ ⟨hV1, hV2⟩⟩
  | mute n =>
    exact ⟨(toggleMute_zoom n st).1 ▸ ⟨hH1, hH2⟩, (toggleMute_zoom n st).2 ▸ ⟨hV1, hV2⟩⟩
  | volume n v =>
    exact ⟨(updateVolume_zoom n v st).1 ▸ ⟨hH1, hH2⟩, (updateVolume_zoom n v st).2 ▸ ⟨hV1, hV2⟩⟩
  | load404 n => exact ⟨⟨hH1, hH2⟩, ⟨hV1, hV2⟩⟩
  | loadOk n d => exact ⟨⟨hH1, hH2⟩, ⟨hV1, hV2⟩⟩
  | maxDur => exact ⟨⟨hH1, hH2⟩, ⟨hV1, hV2⟩⟩
  | zinH => exact ⟨hin st.zoomH hH1 hH2, ⟨hV1, hV2⟩⟩
  | zoutH => exact ⟨hout st.zoomH hH1 hH2, ⟨hV1, hV2⟩⟩
  | zinV => exact ⟨⟨hH1, hH2⟩, hin st.zoomV hV1 hV2⟩
  | zoutV => exact ⟨⟨hH1, hH2⟩, hout st.zoomV hV1 hV2⟩
  | zreset => refine ⟨⟨?_, ?_⟩, ⟨?_, ?_⟩⟩ <;> norm_num [step, zoomReset]

lemma zoomInv_run : ∀ (ops : List Op) (st : EngineState), zoomInv st → zoomInv (run ops st)
  | [], _, h => h
  | o :: rest, st, h => zoomInv_run rest (step o st) (zoomInv_step o st h)

/-- C10: starting from the constructor state (both levels 1.0), every
sequence of session events — in particular any mix of zoom-in, zoom-out
and zoom-reset clicks — leaves both zoom levels in `[0.5, 10]`; and the
five zoom handlers touch no transport state (`isPlaying`, `currentTime`,
`maxDuration`, the stem table and its sources are all unchanged). -/
theorem zoom_levels_bounded :
    (∀ ops : List Op, zoomInv (run ops initState)) ∧
    (∀ st : EngineState,
      (zoomInH st).isPlaying = st.isPlaying ∧ (zoomInH st).currentTime = st.currentTime ∧
      (zoomInH st).maxDuration = st.maxDuration ∧ (zoomInH st).stems = st.stems ∧
      (zoomOutH st).isPlaying = st.isPlaying ∧ (zoomOutH st).currentTime = st.currentTime ∧
      (zoomOutH st).maxDuration = st.maxDuration ∧ (zoomOutH st).stems = st.stems ∧
      (zoomInV st).isPlaying = st.isPlaying ∧ (zoomInV st).currentTime = st.currentTime ∧
      (zoomInV st).maxDuration = st.maxDuration ∧ (zoomInV st).stems = st.stems ∧
      (zoomOutV st).isPlaying = st.isPlaying ∧ (zoomOutV st).currentTime = st.currentTime ∧
      (zoomOutV st).maxDuration = st.maxDuration ∧ (zoomOutV st).stems = st.stems ∧
      (zoomReset st).isPlaying = st.isPlaying ∧ (zoomReset st).currentTime = st.currentTime ∧
      (zoomReset st).maxDuration = st.maxDuration ∧ (zoomReset st).stems = st.stems) := by
  constructor
  · intro ops
    exact zoomInv_run ops initState (by norm_num [zoomInv, initState])
  · intro st
    exact ⟨rfl, rfl, rfl, rfl, rfl, rfl, rfl, rfl, rfl, rfl,
           rfl, rfl, rfl, rfl, rfl, rfl, rfl, rfl, rfl, rfl⟩

/-!  C2 — ended-notification discipline for programmatic stops. -/

/-- C2: `pause` and `seekToPosition` remove each source's ended handler
before issuing the programmatic stop, so neither queues a single ended
callback (`pending` is unchanged — in particular no `handleStemEnded`
run can be caused by them); and `handleStemEnded` performs the
session-wide stopped transition (`isPlaying = false`, `currentTime = 0`,
playhead at 0) exactly when, after clearing the finished stem's source,
every active stem's source is gone — otherwise it leaves the transport
untouched. -/
theorem programmatic_stop_suppresses_ended (st : EngineState) (name : String) (p c : ℚ) :
    (pause c st).pending = st.pending ∧
    (seekToPosition p c st).pending = st.pending ∧
    (st.isPausing = false →
      ((mapStem st.stems name (fun s => { s with source := none })).all
          (fun s => !s.active || s.source.isNone) = true →
        (handleStemEnded name st).isPlaying = false ∧
        (handleStemEnded name st).currentTime = 0 ∧
        (handleStemEnded name st).playhead = 0) ∧
      ((mapStem st.stems name (fun s => { s with source := none })).all
          (fun s => !s.active || s.source.isNone) = false →
        (handleStemEnded name st).isPlaying = st.isPlaying ∧
        (handleStemEnded name st).currentTime = st.currentTime ∧
        (handleStemEnded name st).playhead = st.playhead)) := by
  refine ⟨?_, ?_, ?_⟩
  · unfold pause
    split <;> rfl
  · simp only [seekToPosition]
    split <;> rfl
  · intro hnp
    constructor
    · intro hall
      simp [handleStemEnded, hnp, hall]
    · intro hnall
      simp [handleStemEnded, hnp, hnall]

/-- Stable stem-name constants used by the concrete witnesses and
counterexamples (these are among the standard stem names the mixer tries
to load). -/
def vocalsName : String := "vocals"

def drumsName : String := "drums"

def bassName : String := "bass"

/-- A concrete loaded stem whose source has just finished. -/
def endedWitnessStem : Stem :=
  { name := vocalsName, buffer := some 10, source := none, gainNode := none,
    volume := 1, pan := 0, muted := false, solo := false, active := true }

/-- A concrete playing session holding only `endedWitnessStem`. -/
def endedWitnessState : EngineState :=
  { initState with
    isPlaying := true, currentTime := 7, playhead := 7,
    stems := [endedWitnessStem] }

/-- Witness for C2's conditional clauses at a concrete state: a single
active stem whose source has just ended (`handleStemEnded` clears it and,
all active stems now being finished, resets the transport). -/
theorem programmatic_stop_suppresses_ended_witness :
    (handleStemEnded vocalsName endedWitnessState).isPlaying = false ∧
    (handleStemEnded vocalsName endedWitnessState).currentTime = 0 ∧
    (handleStemEnded vocalsName endedWitnessState).playhead = 0 :=
  (((programmatic_stop_suppresses_ended endedWitnessState vocalsName 0 0).2.2)
    rfl).1 (by decide)

/-!  Shared facts about `updateSoloMuteStates`. -/

/-- The per-stem update applied by `updateSoloMuteStates` preserves the
solo flags, so `hasSolo` computed before and after agree. -/
lemma updateSoloMuteStates_hasSolo (st : EngineState) :
    hasSolo (updateSoloMuteStates st).stems = hasSolo st.stems := by
  unfold updateSoloMuteStates hasSolo
  dsimp only
  rw [List.any_map]
  congr 1
  funext s
  cases hg : s.gainNode <;> simp [Function.comp, hg]

/-- What `updateSoloMuteStates` establishes for every stem that has a
gain node: the gain equals the solo/mute formula, and the `active` flag
has been overwritten (through `updateTrackStatus`) with the stem's
audibility. -/
lemma updateSoloMuteStates_mem (st : EngineState) :
    ∀ s ∈ (updateSoloMuteStates st).stems,
      (∀ g, s.gainNode = some g →
        g = specStemGain (hasSolo (updateSoloMuteStates st).stems) s.solo s.muted s.volume) ∧
      (s.gainNode.isSome = true →
        s.active = (if hasSolo (updateSoloMuteStates st).stems then s.solo else !s.muted)) := by
  intro s hs
  rw [updateSoloMuteStates_hasSolo]
  unfold updateSoloMuteStates at hs
  dsimp only at hs
  rcases List.mem_map.mp hs with ⟨s0, _, rfl⟩
  cases h0 : s0.gainNode with
  | none =>
    exact ⟨fun g hg => by simp [h0] at hg, fun hg => by simp [h0] at hg⟩
  | some g0 =>
    refine ⟨fun g hg => ?_, fun _ => by simp only [h0]⟩
    simp only [h0, Option.some.injEq] at hg
    simp only [h0]
    rw [← hg]
    cases hhs : hasSolo st.stems <;> cases hm : s0.muted <;> cases hsl : s0.solo <;>
      simp [specStemGain]

/-- Scalar transport fields are untouched by `updateSoloMuteStates`. -/
lemma updateSoloMuteStates_frame (st : EngineState) :
    (updateSoloMuteStates st).isPlaying = st.isPlaying ∧
    (updateSoloMuteStates st).currentTime = st.currentTime ∧
    (updateSoloMuteStates st).playhead = st.playhead ∧
    (updateSoloMuteStates st).maxDuration = st.maxDuration :=
  ⟨rfl, rfl, rfl, rfl⟩

/-- Per-stem sources are untouched by `updateSoloMuteStates`. -/
lemma updateSoloMuteStates_sources (st : EngineState) :
    (updateSoloMuteStates st).stems.map (fun s => s.source)
      = st.stems.map (fun s => s.source) := by
  unfold updateSoloMuteStates
  dsimp only
  rw [List.map_map]
  congr 1
  funext s
  cases hg : s.gainNode <;> simp [Function.comp, hg]

/-!  C7 — what the mute/solo setters actually touch. -/

/-- A concrete loaded, playing-ready stem with a gain node. -/
def muteCexStem : Stem :=
  { name := vocalsName, buffer := some 10, source := none, gainNode := some 1,
    volume := 1, pan := 0, muted := false, solo := false, active := true }

/-- A concrete session holding only `muteCexStem`. -/
def muteCexState : EngineState :=
  { initState with
    stems := [muteCexStem], maxDuration := 10 }

/-- C7 counterexample: toggling mute on the (previously audible, active)
stem rewrites its `active` flag to `false` — the setter does *not* leave
`active` unchanged, because `updateSoloMuteStates` pushes the computed
audibility into `active` through `updateTrackStatus`. -/
theorem toggle_mute_active_counterexample :
    (muteCexState.stems.map (fun s => s.active)) = [true] ∧
    ((toggleMute vocalsName muteCexState).stems.map (fun s => s.active)) = [false] := by
  constructor
  · rfl
  · simp [toggleMute, muteCexState, muteCexStem, initState, findStem, mapStem,
      updateSoloMuteStates, hasSolo, vocalsName]

/-- C7 amended: the mute/solo setters leave the transport state
(`isPlaying`, `currentTime`, playhead, `maxDuration`) and every stem's
source untouched, but they do *not* leave `active` untouched: for every
stem that has a gain node, `active` is overwritten with the computed
audibility `hasSolo ? solo : !muted`. -/
theorem solo_mute_frame_amended (st : EngineState) (name : String)
    (hfound : (findStem st.stems name).isSome = true) :
    (toggleSolo name st).isPlaying = st.isPlaying ∧
    (toggleSolo name st).currentTime = st.currentTime ∧
    (toggleSolo name st).playhead = st.playhead ∧
    (toggleMute name st).isPlaying = st.isPlaying ∧
    (toggleMute name st).currentTime = st.currentTime ∧
    (toggleMute name st).playhead = st.playhead ∧
    ((toggleSolo name st).stems.map (fun s => s.source)
      = st.stems.map (fun s => s.source)) ∧
    ((toggleMute name st).stems.map (fun s => s.source)
      = st.stems.map (fun s => s.source)) ∧
    (∀ s ∈ (toggleSolo name st).stems, s.gainNode.isSome = true →
      s.active = (if hasSolo (toggleSolo name st).stems then s.solo else !s.muted)) ∧
    (∀ s ∈ (toggleMute name st).stems, s.gainNode.isSome = true →
      s.active = (if hasSolo (toggleMute name st).stems then s.solo else !s.muted)) := by
  rcases Option.isSome_iff_exists.mp hfound with ⟨s0, hf⟩
  unfold toggleSolo toggleMute
  rw [hf]
  dsimp only
  refine ⟨(updateSoloMuteStates_frame _).1, (updateSoloMuteStates_frame _).2.1,
    (updateSoloMuteStates_frame _).2.2.1,
    (updateSoloMuteStates_frame _).1, (updateSoloMuteStates_frame _).2.1,
    (updateSoloMuteStates_frame _).2.2.1, ?_, ?_, ?_, ?_⟩
  · rw [updateSoloMuteStates_sources]
    unfold mapStem
    rw [List.map_map]
    congr 1
    funext s
    by_cases hn : s.name = name <;> simp [Function.comp, hn]
  · rw [updateSoloMuteStates_sources]
    unfold mapStem
    rw [List.map_map]
    congr 1
    funext s
    by_cases hn : s.name = name <;> simp [Function.comp, hn]
  · intro s hs hg
    exact ((updateSoloMuteStates_mem _ s hs).2 hg)
  · intro s hs hg
    exact ((updateSoloMuteStates_mem _ s hs).2 hg)

/-- Witness for C7's amended theorem at the concrete `muteCexState`. -/
theorem solo_mute_frame_amended_witness :
    (toggleMute vocalsName muteCexState).isPlaying = muteCexState.isPlaying ∧
    (toggleMute vocalsName muteCexState).currentTime = muteCexState.currentTime :=
  ⟨(solo_mute_frame_amended muteCexState vocalsName (by decide)).2.2.2.1,
   (solo_mute_frame_amended muteCexState vocalsName (by decide)).2.2.2.2.1⟩

/-!  C1 — the solo/mute formula across the two backends
(counterexample part). -/

/-- A media-element stem that is muted while it is about to be soloed. -/
def soloMuteCexStem : MStem :=
  { name := vocalsName, volume := 1, pan := 0, muted := true, solo := false,
    audioVolume := 1, audioMuted := false, lastVolume := 0 }

/-- A concrete mobile engine (non-iOS, unit master volume) holding only
`soloMuteCexStem`. -/
def soloMuteCexEngine : MEngine :=
  { stems := [soloMuteCexStem], masterVolume := 1, isIOS := false }

/-- The Web Audio analogue of `soloMuteCexStem`: a muted stem with a gain
node, about to be soloed. -/
def soloMuteCexDesktopStem : Stem :=
  { name := vocalsName, buffer := some 10, source := none, gainNode := some 0,
    volume := 1, pan := 0, muted := true, solo := false, active := false }

/-- The Web Audio session holding only `soloMuteCexDesktopStem`. -/
def soloMuteCexDesktopState : EngineState :=
  { initState with
    stems := [soloMuteCexDesktopStem], maxDuration := 10 }

/-- C1 counterexample: soloing a muted stem.  The claimed formula
(`audibility = hasSolo ? solo : !muted`, so a muted solo stem plays at
its volume) matches the Web Audio backend, which sets the gain to 1 —
but the media-element backend computes
`shouldBeMuted = muted || (hasSolo && !solo)` and silences the same stem,
so the rule does **not** hold identically in both backends. -/
theorem solo_mute_backends_counterexample :
    ((setStemSolo vocalsName true soloMuteCexEngine).stems.map mEffectiveGain) = [0] ∧
    ((setStemSolo vocalsName true soloMuteCexEngine).stems.map (fun s =>
        specStemGain (mHasSolo (setStemSolo vocalsName true soloMuteCexEngine).stems)
          s.solo s.muted s.volume)) = [1] ∧
    ((toggleSolo vocalsName soloMuteCexDesktopState).stems.map (fun s => s.gainNode))
      = [some 1] ∧
    (0 : ℚ) ≠ 1 := by
  refine ⟨?_, ?_, ?_, by norm_num⟩
  · rfl
  · rfl
  · simp [toggleSolo, soloMuteCexDesktopState, soloMuteCexDesktopStem, initState, findStem,
      mapStem, updateSoloMuteStates, hasSolo, vocalsName]

/-!  C5 — volume setter vs the solo/mute formula (counterexample part). -/

/-- A soloed stem, next to which another stem's volume will be set. -/
def volumeCexSolo : Stem :=
  { name := vocalsName, buffer := some 10, source := none, gainNode := some 1,
    volume := 1, pan := 0, muted := false, solo := true, active := true }

/-- The non-solo stem whose volume is set while `volumeCexSolo` is
soloed; its gain is currently 0 because of the solo. -/
def volumeCexOther : Stem :=
  { name := drumsName, buffer := some 10, source := none, gainNode := some 0,
    volume := 1, pan := 0, muted := false, solo := false, active := false }

/-- A session with one soloed stem and one silenced non-solo stem. -/
def volumeCexState : EngineState :=
  { initState with
    stems := [volumeCexSolo, volumeCexOther], maxDuration := 10 }

/-- C5 counterexample: with `vocals` soloed, `TrackControls.updateVolume`
on the non-solo, unmuted `drums` writes the new volume 1 straight into
the drums gain node, although the solo/mute formula prescribes gain 0
for it (`hasSolo` is true and `drums` is not solo). -/
theorem set_volume_solo_counterexample :
    ((updateVolume drumsName 1 volumeCexState).stems.map (fun s => s.gainNode))
      = [some 1, some 1] ∧
    hasSolo (updateVolume drumsName 1 volumeCexState).stems = true ∧
    specStemGain true false false 1 = 0 ∧
    (1 : ℚ) ≠ 0 := by
  refine ⟨?_, ?_, rfl, by norm_num⟩
  · simp [updateVolume, updVolStem, volumeCexState, volumeCexSolo, volumeCexOther, initState,
      findStem, mapStem, vocalsName, drumsName]
  · simp [updateVolume, updVolStem, volumeCexState, volumeCexSolo, volumeCexOther, initState,
      findStem, mapStem, hasSolo, vocalsName, drumsName]

/-!  C6 — behaviour of `loadStem` on HTTP 404. -/

/-- C6 counterexample: after a 404 on `bass`, the stem entry created at
the top of `loadStem` is still there with `active = true` — the stem is
*not* marked inactive; only its `buffer` stays unset. -/
theorem load404_active_counterexample :
    findStem (loadStem404 bassName initState).stems bassName = some (freshStem bassName) ∧
    (freshStem bassName).active = true := by
  constructor
  · simp [loadStem404, initState, setStemEntry, findStem, freshStem]
  · rfl

lemma load404_stems (st : EngineState) (name : String)
    (hfresh : st.stems.any (fun t => t.name = name) = false) :
    (loadStem404 name st).stems = st.stems ++ [freshStem name] := by
  simp [loadStem404, setStemEntry, freshStem, hfresh]

/-- Every stem of a `stemClearAndStop`-swept list has no source. -/
lemma clearAll_source (l : List Stem) : ∀ s ∈ l.map stemClearAndStop, s.source = none := by
  intro s hs
  rcases List.mem_map.mp hs with ⟨s0, _, rfl⟩
  unfold stemClearAndStop
  cases h : s0.source <;> simp [h]

/-- If no stem of the input holds a source, then after the start loop the
stems that have no decoded buffer still hold no source (the loop only
creates sources for stems with a buffer). -/
lemma startStems_nobuffer (handler : Bool) (t : ℚ) :
    ∀ (l : List Stem) (nid : Nat) (g : List (Nat × Nat)),
      (∀ s ∈ l, s.source = none) →
      ∀ s ∈ (startStems handler t l nid g).1, s.buffer = none → s.source = none := by
  intro l
  induction l with
  | nil =>
    intro nid g _ s hs
    simp [startStems] at hs
  | cons a l ih =>
    intro nid g hsrc s hs hb
    by_cases hab : (a.active && a.buffer.isSome) = true
    · rw [startStems, if_pos hab] at hs
      dsimp only at hs
      rcases List.mem_cons.mp hs with h | h
      · subst h
        simp only [Bool.and_eq_true] at hab
        rw [hb] at hab
        simp at hab
      · exact ih (nid + 1) _ (fun s hsl => hsrc s (List.mem_cons_of_mem a hsl)) s h hb
    · rw [startStems, if_neg hab] at hs
      dsimp only at hs
      rcases List.mem_cons.mp hs with h | h
      · subst h
        exact hsrc s (List.mem_cons_self s l)
      · exact ih nid g (fun s hsl => hsrc s (List.mem_cons_of_mem a hsl)) s h hb

/-- After `play`, a stem without a decoded buffer holds no source. -/
lemma play_nobuffer (c : ℚ) (st : EngineState) :
    ∀ s ∈ (play c st).stems, s.buffer = none → s.source = none := by
  unfold play
  dsimp only
  exact startStems_nobuffer true st.currentTime (st.stems.map stemClearAndStop)
    st.nextId st.ghost (clearAll_source st.stems)

/-- C6 amended: a 404 load leaves the engine without an error (the
function returns normally), the stem entry keeps `buffer = null` **and
`active = true`** (it is not marked inactive); the stem is excluded from
`maxDuration` and from playback not via `active` but because its buffer
is unset; and the other stems' entries are untouched. -/
theorem load404_amended (st : EngineState) (name : String) (c : ℚ)
    (hfresh : st.stems.any (fun t => t.name = name) = false) :
    findStem (loadStem404 name st).stems name = some (freshStem name) ∧
    (freshStem name).buffer = none ∧
    (freshStem name).active = true ∧
    computeMaxDuration (loadStem404 name st).stems = computeMaxDuration st.stems ∧
    (∀ s ∈ st.stems, s ∈ (loadStem404 name st).stems) ∧
    (∀ s ∈ (play c (loadStem404 name st)).stems, s.buffer = none → s.source = none) := by
  have hst := load404_stems st name hfresh
  refine ⟨?_, rfl, rfl, ?_, ?_, ?_⟩
  · rw [hst]
    unfold findStem
    rw [List.find?_append]
    have h1 : List.find? (fun s => s.name = name) st.stems = none := by
      rw [List.find?_eq_none]
      intro x hx
      have hall := List.any_eq_false.mp hfresh x hx
      simpa using hall
    rw [h1]
    simp [freshStem]
  · rw [hst]
    unfold computeMaxDuration
    rw [List.foldl_append]
    simp [freshStem]
  · rw [hst]
    intro s hs
    exact List.mem_append_left _ hs
  · exact play_nobuffer c _

/-- Witness for C6's amended theorem: loading `bass` into the empty
session after a 404. -/
theorem load404_amended_witness :
    findStem (loadStem404 bassName initState).stems bassName = some (freshStem bassName) ∧
    computeMaxDuration (loadStem404 bassName initState).stems
      = computeMaxDuration initState.stems :=
  ⟨(load404_amended initState bassName 0 (by decide)).1,
   (load404_amended initState bassName 0 (by decide)).2.2.2.1⟩

/-!  Facts about the media-element backend's refresh loop. -/

/-- The per-stem mixing flags of a media-element stem (name, stored
volume, muted, solo) — everything `updateStemAudio` reads but never
writes. -/
def mFlags (s : MStem) : String × ℚ × Bool × Bool :=
  (s.name, s.volume, s.muted, s.solo)

lemma refreshStem_mFlags (hs : Bool) (mv : ℚ) (ios : Bool) (s : MStem) :
    mFlags (refreshStem hs mv ios s) = mFlags s := by
  unfold refreshStem mFlags
  cases ios <;> rfl

lemma refreshStem_name (hs : Bool) (mv : ℚ) (ios : Bool) (s : MStem) :
    (refreshStem hs mv ios s).name = s.name :=
  congrArg (fun q => q.1) (refreshStem_mFlags hs mv ios s)

lemma refreshStem_volume (hs : Bool) (mv : ℚ) (ios : Bool) (s : MStem) :
    (refreshStem hs mv ios s).volume = s.volume :=
  congrArg (fun q => q.2.1) (refreshStem_mFlags hs mv ios s)

/-- The refresh of one stem's element touches neither any stem's mixing
flags nor the engine-level fields. -/
lemma updateStemAudio_frame (n : String) (e : MEngine) :
    (updateStemAudio n e).stems.map mFlags = e.stems.map mFlags ∧
    (updateStemAudio n e).masterVolume = e.masterVolume ∧
    (updateStemAudio n e).isIOS = e.isIOS := by
  unfold updateStemAudio
  cases hf : e.stems.find? (fun s => s.name = n) with
  | none => exact ⟨rfl, rfl, rfl⟩
  | some s0 =>
    refine ⟨?_, rfl, rfl⟩
    dsimp only
    rw [List.map_map]
    congr 1
    funext s
    by_cases hn : s.name = n <;> simp [Function.comp, hn, refreshStem_mFlags]

lemma mHasSolo_eq_of_mFlags : ∀ {l1 l2 : List MStem},
    l1.map mFlags = l2.map mFlags → mHasSolo l1 = mHasSolo l2
  | [], [], _ => rfl
  | [], _ :: _, h => by simp at h
  | _ :: _, [], h => by simp at h
  | a1 :: t1, a2 :: t2, h => by
    simp only [List.map_cons, List.cons.injEq] at h
    have hsolo : a1.solo = a2.solo := congrArg (fun q => q.2.2.2) h.1
    have ht := mHasSolo_eq_of_mFlags h.2
    simp only [mHasSolo, List.any_cons] at ht ⊢
    rw [hsolo, ht]

lemma mVolumes_eq_of_mFlags {l1 l2 : List MStem}
    (h : l1.map mFlags = l2.map mFlags) :
    l1.map (fun s => s.volume) = l2.map (fun s => s.volume) := by
  have h2 := congrArg (List.map (fun q : String × ℚ × Bool × Bool => q.2.1)) h
  simpa [List.map_map, Function.comp, mFlags] using h2

/-- What one pass of `updateStemAudio` establishes (non-iOS): the
element's `muted` flag equals `shouldBeMuted` and its `volume` equals the
clamped final volume. -/
def refreshedAt (hs : Bool) (mv : ℚ) (s : MStem) : Prop :=
  s.audioMuted = (s.muted || (hs && !s.solo)) ∧
  s.audioVolume = max 0 (min 1 (if s.muted || (hs && !s.solo) then 0 else s.volume * mv))

lemma refreshStem_refreshedAt (hs : Bool) (mv : ℚ) (s : MStem) :
    refreshedAt hs mv (refreshStem hs mv false s) := by
  unfold refreshStem refreshedAt
  exact ⟨rfl, rfl⟩

/-- After `updateStemAudio n`, every stem actually named `n` has been
refreshed against the engine's current `hasSolo`. -/
lemma updateStemAudio_named_refreshed (n : String) (e : MEngine) (hios : e.isIOS = false) :
    ∀ s ∈ (updateStemAudio n e).stems, s.name = n →
      refreshedAt (mHasSolo e.stems) e.masterVolume s := by
  intro s hs hname
  unfold updateStemAudio at hs
  cases hf : e.stems.find? (fun t => t.name = n) with
  | none =>
    rw [hf] at hs
    dsimp only at hs
    have := List.find?_eq_none.mp hf s hs
    simp [hname] at this
  | some s0 =>
    rw [hf] at hs
    dsimp only at hs
    rcases List.mem_map.mp hs with ⟨t, _, rfl⟩
    by_cases htn : t.name = n
    · rw [if_pos htn]
      rw [if_pos htn] at hname
      rw [hios]
      exact refreshStem_refreshedAt _ _ t
    · rw [if_neg htn] at hname
      exact absurd hname htn

/-- Stems not named `n` pass through `updateStemAudio n` unchanged. -/
lemma updateStemAudio_unnamed_mem (n : String) (e : MEngine) (s : MStem)
    (hs : s ∈ (updateStemAudio n e).stems) (hn : s.name ≠ n) : s ∈ e.stems := by
  unfold updateStemAudio at hs
  cases hf : e.stems.find? (fun t => t.name = n) with
  | none =>
    rw [hf] at hs
    exact hs
  | some s0 =>
    rw [hf] at hs
    dsimp only at hs
    rcases List.mem_map.mp hs with ⟨t, ht, rfl⟩
    by_cases htn : t.name = n
    · rw [if_pos htn] at hn
      exact absurd ((refreshStem_name _ _ _ t).trans htn) hn
    · rw [if_neg htn]
      exact ht

lemma foldRefresh_frame (names : List String) :
    ∀ e : MEngine,
      ((names.foldl (fun acc n => updateStemAudio n acc) e).stems.map mFlags
        = e.stems.map mFlags) ∧
      (names.foldl (fun acc n => updateStemAudio n acc) e).masterVolume = e.masterVolume ∧
      (names.foldl (fun acc n => updateStemAudio n acc) e).isIOS = e.isIOS := by
  induction names with
  | nil => intro e; exact ⟨rfl, rfl, rfl⟩
  | cons n names ih =>
    intro e
    rw [List.foldl_cons]
    have h1 := updateStemAudio_frame n e
    have h2 := ih (updateStemAudio n e)
    exact ⟨h2.1.trans h1.1, h2.2.1.trans h1.2.1, h2.2.2.trans h1.2.2⟩

/-- The refresh loop: every stem whose name was processed is refreshed
(against the untouched flags), and every other stem passed through
unchanged. -/
lemma foldRefresh_spec (names : List String) :
    ∀ (e : MEngine), e.isIOS = false →
      ∀ s ∈ (names.foldl (fun acc n => updateStemAudio n acc) e).stems,
        (s.name ∈ names → refreshedAt (mHasSolo e.stems) e.masterVolume s) ∧
        (s.name ∉ names → s ∈ e.stems) := by
  induction names with
  | nil =>
    intro e _ s hs
    exact ⟨fun h => absurd h (List.not_mem_nil _), fun _ => hs⟩
  | cons n names ih =>
    intro e hios s hs
    rw [List.foldl_cons] at hs
    have hframe := updateStemAudio_frame n e
    have hios1 : (updateStemAudio n e).isIOS = false := hframe.2.2.trans hios
    have hsolo1 : mHasSolo (updateStemAudio n e).stems = mHasSolo e.stems :=
      mHasSolo_eq_of_mFlags hframe.1
    have h2 := ih (updateStemAudio n e) hios1 s hs
    constructor
    · intro hname
      rcases List.mem_cons.mp hname with h | h
      · by_cases hin : s.name ∈ names
        · have h3 := h2.1 hin
          rw [hsolo1, hframe.2.1] at h3
          exact h3
        · exact updateStemAudio_named_refreshed n e hios s (h2.2 hin) h
      · have h3 := h2.1 h
        rw [hsolo1, hframe.2.1] at h3
        exact h3
    · intro hname
      have hn : s.name ≠ n := fun hc => hname (by rw [hc]; exact List.mem_cons_self n names)
      have hnin : s.name ∉ names := fun hc => hname (List.mem_cons_of_mem n hc)
      exact updateStemAudio_unnamed_mem n e s (h2.2 hnin) hn

/-- After `refreshAll`, every stem of the engine is refreshed. -/
lemma refreshAll_spec (e : MEngine) (hios : e.isIOS = false) :
    ∀ s ∈ (refreshAll e).stems,
      refreshedAt (mHasSolo (refreshAll e).stems) e.masterVolume s := by
  intro s hs
  unfold refreshAll at hs ⊢
  have hframe := foldRefresh_frame (e.stems.map (fun t => t.name)) e
  have hsolo : mHasSolo ((e.stems.map (fun t => t.name)).foldl
      (fun acc n => updateStemAudio n acc) e).stems = mHasSolo e.stems :=
    mHasSolo_eq_of_mFlags hframe.1
  rw [hsolo]
  refine (foldRefresh_spec (e.stems.map (fun t => t.name)) e hios s hs).1 ?_
  have hmemflags : mFlags s ∈ ((e.stems.map (fun t => t.name)).foldl
      (fun acc n => updateStemAudio n acc) e).stems.map mFlags :=
    List.mem_map_of_mem _ hs
  rw [hframe.1] at hmemflags
  rcases List.mem_map.mp hmemflags with ⟨t, ht, hts⟩
  have hn : t.name = s.name := congrArg (fun q => q.1) hts
  rw [← hn]
  exact List.mem_map_of_mem _ ht

/-- Reading the effective output of a refreshed stem (non-iOS, unit
master volume, volume within `[0, 1]`): it equals the backend's derived
gain `muted || (hasSolo && !solo) ? 0 : volume`. -/
lemma refreshedAt_effective (hs : Bool) (mv : ℚ) (s : MStem)
    (h : refreshedAt hs mv s) (hmv : mv = 1)
    (h0 : 0 ≤ s.volume) (h1 : s.volume ≤ 1) :
    mEffectiveGain s = mobileDerivedGain hs 1 s := by
  subst hmv
  unfold mEffectiveGain mobileDerivedGain
  rcases h with ⟨hm, hv⟩
  rw [hm, hv]
  by_cases hsb : (s.muted || (hs && !s.solo)) = true
  · simp [hsb]
  · have hf : (s.muted || (hs && !s.solo)) = false := by simpa using hsb
    simp only [hf, Bool.false_eq_true, if_false]
    rw [mul_one, min_eq_right h1, max_eq_right h0]

/-- The volumes stored in the engine are untouched by `setStemSolo`. -/
lemma setStemSolo_volumes (n : String) (v : Bool) (e : MEngine) :
    (setStemSolo n v e).stems.map (fun s => s.volume)
      = e.stems.map (fun s => s.volume) := by
  unfold setStemSolo
  cases hf : e.stems.find? (fun s => s.name = n) with
  | none => rfl
  | some s0 =>
    dsimp only
    set e1 : MEngine := { e with stems := (e.stems.map (fun s =>
        if s.name = n then { s with solo := v } else s)) } with he1
    unfold refreshAll
    have hframe := foldRefresh_frame (e1.stems.map (fun s => s.name)) e1
    have h1 := mVolumes_eq_of_mFlags hframe.1
    rw [h1]
    simp only [he1]
    rw [List.map_map]
    congr 1
    funext s
    by_cases hn : s.name = n <;> simp [Function.comp, hn]

/-- C1 amended: the solo/mute recomputation law, as the two backends
actually implement it.  In the Web Audio backend both `toggleSolo` and
`toggleMute` set every gain-node stem's gain to exactly the
specification formula `(hasSolo ? solo : !muted) ? volume : 0`.  In the
media-element backend (non-iOS, unit master volume, volumes in `[0,1]`),
`setStemSolo` re-derives every stem's effective output — but by the
variant rule `muted || (hasSolo && !solo) ? 0 : volume`.  The two rules
agree for every stem that is not simultaneously muted and solo (the
counterexample shows they differ there); in particular both silence
every non-solo stem as soon as any stem is solo, and with no solo both
restore `muted ? 0 : volume`. -/
theorem solo_mute_algorithm_amended (st : EngineState) (name : String)
    (e : MEngine) (n2 : String) (v : Bool)
    (hfound : (findStem st.stems name).isSome = true)
    (hios : e.isIOS = false) (hmv : e.masterVolume = 1)
    (hvol : ∀ s ∈ e.stems, 0 ≤ s.volume ∧ s.volume ≤ 1)
    (hfound2 : (e.stems.find? (fun s => s.name = n2)).isSome = true) :
    (∀ s ∈ (toggleSolo name st).stems, ∀ g, s.gainNode = some g →
      g = specStemGain (hasSolo (toggleSolo name st).stems) s.solo s.muted s.volume) ∧
    (∀ s ∈ (toggleMute name st).stems, ∀ g, s.gainNode = some g →
      g = specStemGain (hasSolo (toggleMute name st).stems) s.solo s.muted s.volume) ∧
    (∀ s ∈ (setStemSolo n2 v e).stems,
      mEffectiveGain s = mobileDerivedGain (mHasSolo (setStemSolo n2 v e).stems) 1 s) ∧
    (∀ (hs : Bool) (s : MStem), ¬(s.muted = true ∧ s.solo = true) →
      mobileDerivedGain hs 1 s = specStemGain hs s.solo s.muted s.volume) ∧
    (∀ (hs solo muted : Bool) (vol : ℚ), hs = true → solo = false →
      specStemGain hs solo muted vol = 0) ∧
    (∀ (solo muted : Bool) (vol : ℚ),
      specStemGain false solo muted vol = if muted then 0 else vol) ∧
    (∀ (hs : Bool) (s : MStem), hs = true → s.solo = false →
      mobileDerivedGain hs 1 s = 0) ∧
    (∀ s : MStem, mobileDerivedGain false 1 s = if s.muted then 0 else s.volume) := by
  rcases Option.isSome_iff_exists.mp hfound with ⟨s0, hf⟩
  refine ⟨?_, ?_, ?_, ?_, ?_, ?_, ?_, ?_⟩
  · intro s hs g hg
    unfold toggleSolo at hs ⊢
    rw [hf] at hs ⊢
    dsimp only at hs ⊢
    exact (updateSoloMuteStates_mem _ s hs).1 g hg
  · intro s hs g hg
    unfold toggleMute at hs ⊢
    rw [hf] at hs ⊢
    dsimp only at hs ⊢
    exact (updateSoloMuteStates_mem _ s hs).1 g hg
  · intro s hs
    rcases Option.isSome_iff_exists.mp hfound2 with ⟨t0, hf2⟩
    have hvols := setStemSolo_volumes n2 v e
    have hsvol : 0 ≤ s.volume ∧ s.volume ≤ 1 := by
      have hmem : s.volume ∈ (setStemSolo n2 v e).stems.map (fun s => s.volume) :=
        List.mem_map_of_mem _ hs
      rw [hvols] at hmem
      rcases List.mem_map.mp hmem with ⟨t, ht, hts⟩
      rw [← hts]
      exact hvol t ht
    unfold setStemSolo at hs ⊢
    rw [hf2] at hs ⊢
    dsimp only at hs ⊢
    have hrefreshed := refreshAll_spec
      { e with stems := (e.stems.map (fun s =>
          if s.name = n2 then { s with solo := v } else s)) } hios s hs
    exact refreshedAt_effective _ _ s hrefreshed hmv hsvol.1 hsvol.2
  · intro hs s hns
    unfold mobileDerivedGain specStemGain
    cases hm : s.muted with
    | false => cases hsl : s.solo <;> cases hhs : hs <;> simp [mul_one]
    | true =>
      have hsl : s.solo = false := by
        cases hsolo : s.solo
        · rfl
        · exact absurd ⟨hm, hsolo⟩ hns
      cases hhs : hs <;> simp [hsl]
  · intro hs solo muted vol h1 h2
    subst h1; subst h2
    simp [specStemGain]
  · intro solo muted vol
    cases muted <;> simp [specStemGain]
  · intro hs s h1 h2
    simp [mobileDerivedGain, h1, h2]
  · intro s
    cases hm : s.muted <;> simp [mobileDerivedGain, hm, mul_one]

/-- Witness for C1's amended theorem at concrete inputs: `muteCexState`
with `vocals` for the Web Audio side, `soloMuteCexEngine` with `vocals`
for the media side; the instantiated no-solo clause evaluates the
formula. -/
theorem solo_mute_algorithm_amended_witness :
    specStemGain false false true 1 = 0 ∧ specStemGain true false true 1 = 0 :=
  ⟨by
    have h := (solo_mute_algorithm_amended muteCexState vocalsName soloMuteCexEngine
      vocalsName true (by decide) rfl rfl
      (by intro s hs; simp [soloMuteCexEngine, soloMuteCexStem] at hs; rw [hs]; norm_num)
      (by decide)).2.2.2.2.2.1 false true 1
    rw [h];
    rfl,
   (solo_mute_algorithm_amended muteCexState vocalsName soloMuteCexEngine
      vocalsName true (by decide) rfl rfl
      (by intro s hs; simp [soloMuteCexEngine, soloMuteCexStem] at hs; rw [hs]; norm_num)
      (by decide)).2.2.2.2.1 true false true 1 rfl rfl⟩

/-!  C5 — volume setter (amended part). -/

/-- A lookup commutes with a name-preserving per-stem map. -/
lemma findStem_map (l : List Stem) (name : String) (f : Stem → Stem)
    (hf : ∀ s, (f s).name = s.name) :
    findStem (l.map f) name = (findStem l name).map f := by
  induction l with
  | nil => rfl
  | cons a l ih =>
    simp only [List.map_cons]
    unfold findStem at *
    by_cases ha : a.name = name
    · rw [List.find?_cons_of_pos _ (by simp [hf, ha]),
        List.find?_cons_of_pos _ (by simp [ha])]
      rfl
    · rw [List.find?_cons_of_neg _ (by simp [hf, ha]),
        List.find?_cons_of_neg _ (by simp [ha])]
      exact ih

lemma updVolStem_name (v : ℚ) (s : Stem) : (updVolStem v s).name = s.name := by
  unfold updVolStem
  dsimp only
  cases h : s.gainNode
  · rfl
  · dsimp only
    split <;> rfl

lemma updVolStem_solo (v : ℚ) (s : Stem) : (updVolStem v s).solo = s.solo := by
  unfold updVolStem
  dsimp only
  cases h : s.gainNode
  · rfl
  · dsimp only
    split <;> rfl

lemma updVolStem_muted (v : ℚ) (s : Stem) : (updVolStem v s).muted = s.muted := by
  unfold updVolStem
  dsimp only
  cases h : s.gainNode
  · rfl
  · dsimp only
    split <;> rfl

lemma updVolStem_volume (v : ℚ) (s : Stem) : (updVolStem v s).volume = v := by
  unfold updVolStem
  dsimp only
  cases h : s.gainNode
  · rfl
  · dsimp only
    split <;> rfl

/-- The solo flags are untouched by `mapStem` with a solo-preserving
per-stem function. -/
lemma hasSolo_mapStem (l : List Stem) (name : String) (f : Stem → Stem)
    (hf : ∀ s, (f s).solo = s.solo) :
    hasSolo (mapStem l name f) = hasSolo l := by
  unfold hasSolo mapStem
  rw [List.any_map]
  congr 1
  funext s
  by_cases hn : s.name = name <;> simp [Function.comp, hn, hf]

/-- The volume stored for the named stem after
`MobileAudioEngine.setStemVolume` is the new value. -/
lemma setStemVolume_named_volume (n : String) (w : ℚ) (e : MEngine) :
    ∀ s ∈ (setStemVolume n w e).stems, s.name = n → s.volume = w := by
  intro s hs hname
  unfold setStemVolume at hs
  cases hf : e.stems.find? (fun t => t.name = n) with
  | none =>
    rw [hf] at hs
    dsimp only at hs
    have := List.find?_eq_none.mp hf s hs
    simp [hname] at this
  | some s0 =>
    rw [hf] at hs
    dsimp only at hs
    unfold updateStemAudio at hs
    cases hf2 : (e.stems.map (fun s => if s.name = n then { s with volume := w } else s)).find?
        (fun t => t.name = n) with
    | none =>
      rw [hf2] at hs
      dsimp only at hs
      have := List.find?_eq_none.mp hf2 s hs
      simp [hname] at this
    | some s1 =>
      rw [hf2] at hs
      dsimp only at hs
      rcases List.mem_map.mp hs with ⟨t, ht, rfl⟩
      by_cases htn : t.name = n
      · have hvolt : t.volume = w := by
          rcases List.mem_map.mp ht with ⟨u, _, rfl⟩
          by_cases hun : u.name = n
          · simp [hun]
          · rw [if_neg hun] at htn
            exact absurd htn hun
        rw [if_pos htn, refreshStem_volume]
        exact hvolt
      · rw [if_neg htn] at hname
        exact absurd hname htn

/-- A lookup through `updateSoloMuteStates` returns the stored stem with
its gain and `active` fields re-derived. -/
lemma findStem_updateSoloMuteStates (st : EngineState) (name : String) :
    findStem (updateSoloMuteStates st).stems name
      = (findStem st.stems name).map (fun s =>
          match s.gainNode with
          | none => s
          | some _ =>
            { s with
              gainNode := some (if hasSolo st.stems then (if s.solo then s.volume else 0)
                                else (if s.muted then 0 else s.volume)),
              active := if hasSolo st.stems then s.solo else !s.muted }) := by
  unfold updateSoloMuteStates
  dsimp only
  exact findStem_map _ _ _ (fun s => by cases hg : s.gainNode <;> simp [hg])

/-- C5 amended: what the volume setters actually guarantee.  In the Web
Audio backend, `updateVolume` stores the new volume and — when a gain
node exists and the stem is not muted — copies the raw value into the
gain node *without* consulting the solo state of other stems (the
counterexample shows this breaks the claimed formula under solo); while
muted it leaves the gain untouched, so the gain stays at its previous
value (0 if the stem had been silenced), and a subsequent unmute with no
stem solo re-derives the gain to the last-set volume.  In the
media-element backend `setStemVolume` does re-derive the stem's output
by the backend's solo/mute rule. -/
theorem set_volume_gain_amended (st : EngineState) (name : String) (v : ℚ)
    (sOld : Stem) (hf : findStem st.stems name = some sOld)
    (e : MEngine) (n2 : String) (w : ℚ)
    (hios : e.isIOS = false) (hmv : e.masterVolume = 1) (hw0 : 0 ≤ w) (hw1 : w ≤ 1)
    (hfound2 : (e.stems.find? (fun s => s.name = n2)).isSome = true) :
    findStem (updateVolume name v st).stems name = some (updVolStem v sOld) ∧
    (updVolStem v sOld).volume = v ∧
    (sOld.muted = true → (updVolStem v sOld).gainNode = sOld.gainNode) ∧
    (sOld.muted = false →
      (updVolStem v sOld).gainNode = sOld.gainNode.map (fun _ => v)) ∧
    (sOld.muted = true → hasSolo st.stems = false → sOld.gainNode.isSome = true →
      ∃ s, findStem (toggleMute name (updateVolume name v st)).stems name = some s ∧
        s.gainNode = some v ∧ s.volume = v) ∧
    (∀ s ∈ (setStemVolume n2 w e).stems, s.name = n2 →
      mEffectiveGain s = mobileDerivedGain (mHasSolo (setStemVolume n2 w e).stems) 1 s) := by
  have hnameOld : sOld.name = name := by
    have := List.find?_some hf
    simpa using this
  have hfind1 : findStem (updateVolume name v st).stems name = some (updVolStem v sOld) := by
    unfold updateVolume
    rw [hf]
    dsimp only
    unfold mapStem
    rw [findStem_map st.stems name _ (fun s => by
      by_cases hn : s.name = name <;> simp [hn, updVolStem_name])]
    rw [hf]
    simp [hnameOld]
  refine ⟨hfind1, updVolStem_volume v sOld, ?_, ?_, ?_, ?_⟩
  · intro hm
    unfold updVolStem
    dsimp only
    cases hg : sOld.gainNode
    · simp [hg]
    · simp [hg, hm]
  · intro hm
    unfold updVolStem
    dsimp only
    cases hg : sOld.gainNode
    · simp [hg]
    · simp [hg, hm]
  · intro hm hsolo hgain
    rcases Option.isSome_iff_exists.mp hgain with ⟨g0, hg0⟩
    have hgu : (updVolStem v sOld).gainNode = some g0 := by
      have h3 : (updVolStem v sOld).gainNode = sOld.gainNode := by
        unfold updVolStem
        dsimp only
        cases hg : sOld.gainNode
        · simp [hg]
        · simp [hg, hm]
      rw [h3, hg0]
    have hmu : (updVolStem v sOld).muted = true := (updVolStem_muted v sOld).trans hm
    have hnu : (updVolStem v sOld).name = name := (updVolStem_name v sOld).trans hnameOld
    have hsolo2 : hasSolo (mapStem (updateVolume name v st).stems name
        (fun s => { s with muted := !s.muted })) = false := by
      rw [hasSolo_mapStem _ _ _ (fun s => by rfl)]
      unfold updateVolume
      rw [hf]
      dsimp only
      rw [hasSolo_mapStem _ _ _ (fun s => updVolStem_solo v s)]
      exact hsolo
    unfold toggleMute
    rw [hfind1]
    dsimp only
    rw [findStem_updateSoloMuteStates]
    dsimp only
    rw [hsolo2]
    have hfind2 : findStem (mapStem (updateVolume name v st).stems name
        (fun s => { s with muted := !s.muted })) name
          = some { updVolStem v sOld with muted := !(updVolStem v sOld).muted } := by
      unfold mapStem
      rw [findStem_map _ _ _ (fun s => by by_cases hn : s.name = name <;> simp [hn])]
      rw [hfind1]
      simp [hnu]
    rw [hfind2]
    refine ⟨_, rfl, ?_, ?_⟩
    · simp [hgu, hmu, updVolStem_volume]
    · simp [hgu, updVolStem_volume]
  · intro s hs hname
    have hvolw := setStemVolume_named_volume n2 w e s hs hname
    rcases Option.isSome_iff_exists.mp hfound2 with ⟨t0, hf2⟩
    unfold setStemVolume at hs ⊢
    rw [hf2] at hs ⊢
    dsimp only at hs ⊢
    have hrefreshed := updateStemAudio_named_refreshed n2
      { e with stems := (e.stems.map (fun s =>
          if s.name = n2 then { s with volume := w } else s)) } hios s hs hname
    have hframe := updateStemAudio_frame n2
      { e with stems := (e.stems.map (fun s =>
          if s.name = n2 then { s with volume := w } else s)) }
    have hsolo3 := mHasSolo_eq_of_mFlags hframe.1
    rw [← hsolo3] at hrefreshed
    exact refreshedAt_effective _ _ s hrefreshed hmv (hvolw ▸ hw0) (hvolw ▸ hw1)

/-- Witness for C5's amended theorem at the concrete two-stem session of
the counterexample. -/
theorem set_volume_gain_amended_witness :
    findStem (updateVolume drumsName 1 volumeCexState).stems drumsName
      = some (updVolStem 1 volumeCexOther) ∧
    (updVolStem 1 volumeCexOther).volume = 1 :=
  ⟨(set_volume_gain_amended volumeCexState drumsName 1 volumeCexOther (by decide)
      soloMuteCexEngine vocalsName 1 rfl rfl (by norm_num) (by norm_num) (by decide)).1,
   (set_volume_gain_amended volumeCexState drumsName 1 volumeCexOther (by decide)
      soloMuteCexEngine vocalsName 1 rfl rfl (by norm_num) (by norm_num) (by decide)).2.1⟩

/-!  C3 — source lifecycle discipline. -/

/-- Every source ever created (as recorded in the ghost log) has been
started at most once. -/
def ghostOnce (st : EngineState) : Prop :=
  ∀ p ∈ st.ghost, p.2 ≤ 1

/-- Every live source is recorded in the ghost log with its current start
count (so the log is an accurate account of the live graph). -/
def liveInGhost (st : EngineState) : Prop :=
  ∀ s ∈ st.stems, ∀ src, s.source = some src → (src.id, src.startCount) ∈ st.ghost

/-- The source-lifecycle invariant. -/
def sourceInv (st : EngineState) : Prop := ghostOnce st ∧ liveInGhost st

lemma startStems_ghost_sub (handler : Bool) (t : ℚ) :
    ∀ (l : List Stem) (nid : Nat) (g : List (Nat × Nat)),
      ∀ p ∈ g, p ∈ (startStems handler t l nid g).2.2 := by
  intro l
  induction l with
  | nil => intro nid g p hp; rw [startStems]; exact hp
  | cons a l ih =>
    intro nid g p hp
    by_cases hab : (a.active && a.buffer.isSome) = true
    · rw [startStems, if_pos hab]
      dsimp only
      exact ih (nid + 1) _ p (List.mem_append_left _ hp)
    · rw [startStems, if_neg hab]
      dsimp only
      exact ih nid g p hp

lemma startStems_ghost_once (handler : Bool) (t : ℚ) :
    ∀ (l : List Stem) (nid : Nat) (g : List (Nat × Nat)),
      (∀ p ∈ g, p.2 ≤ 1) →
      ∀ p ∈ (startStems handler t l nid g).2.2, p.2 ≤ 1 := by
  intro l
  induction l with
  | nil => intro nid g hg p hp; rw [startStems] at hp; exact hg p hp
  | cons a l ih =>
    intro nid g hg p hp
    by_cases hab : (a.active && a.buffer.isSome) = true
    · rw [startStems, if_pos hab] at hp
      dsimp only at hp
      refine ih (nid + 1) _ ?_ p hp
      intro q hq
      rcases List.mem_append.mp hq with h | h
      · exact hg q h
      · rcases List.mem_singleton.mp h with rfl
        cases handler <;> simp [startSource, mkSource]
    · rw [startStems, if_neg hab] at hp
      dsimp only at hp
      exact ih nid g hg p hp

lemma startStems_live (handler : Bool) (t : ℚ) :
    ∀ (l : List Stem) (nid : Nat) (g : List (Nat × Nat)),
      (∀ s ∈ l, ∀ src, s.source = some src → (src.id, src.startCount) ∈ g) →
      ∀ s ∈ (startStems handler t l nid g).1, ∀ src, s.source = some src →
        (src.id, src.startCount) ∈ (startStems handler t l nid g).2.2 := by
  intro l
  induction l with
  | nil => intro nid g _ s hs; rw [startStems] at hs; simp at hs
  | cons a l ih =>
    intro nid g h s hs src hsrc
    by_cases hab : (a.active && a.buffer.isSome) = true
    · rw [startStems, if_pos hab] at hs ⊢
      dsimp only at hs ⊢
      rcases List.mem_cons.mp hs with h1 | h1
      · subst h1
        simp only [Option.some.injEq] at hsrc
        subst hsrc
        exact startStems_ghost_sub handler t l (nid + 1) _ _
          (List.mem_append_right _ (List.mem_singleton.mpr rfl))
      · exact ih (nid + 1) _
          (fun s' hs' src' h' =>
            List.mem_append_left _ (h s' (List.mem_cons_of_mem a hs') src' h'))
          s h1 src hsrc
    · rw [startStems, if_neg hab] at hs ⊢
      dsimp only at hs ⊢
      rcases List.mem_cons.mp hs with h1 | h1
      · subst h1
        exact startStems_ghost_sub handler t l nid g _
          (h s (List.mem_cons_self s l) src hsrc)
      · exact ih nid g
          (fun s' hs' src' h' => h s' (List.mem_cons_of_mem a hs') src' h')
          s h1 src hsrc

/-- Transfer of the invariant to a state with the same ghost log whose
live sources all descend (same id, same start count) from live sources
of the old state. -/
lemma sourceInv_of (st st' : EngineState) (hg : st'.ghost = st.ghost)
    (hs : ∀ s ∈ st'.stems, ∀ src, s.source = some src →
        ∃ s0 ∈ st.stems, ∃ src0, s0.source = some src0 ∧ src.id = src0.id ∧
          src.startCount = src0.startCount)
    (h : sourceInv st) : sourceInv st' := by
  refine ⟨fun p hp => h.1 p (by rw [← hg]; exact hp), fun s hsmem src hsrc => ?_⟩
  rcases hs s hsmem src hsrc with ⟨s0, hs0, src0, hsrc0, hid, hc⟩
  rw [hg, hid, hc]
  exact h.2 s0 hs0 src0 hsrc0

lemma sourceInv_map_aux (l : List Stem) (f : Stem → Stem)
    (hf : ∀ s src, (f s).source = some src →
        ∃ src0, s.source = some src0 ∧ src.id = src0.id ∧ src.startCount = src0.startCount) :
    ∀ s ∈ l.map f, ∀ src, s.source = some src →
      ∃ s0 ∈ l, ∃ src0, s0.source = some src0 ∧ src.id = src0.id ∧
        src.startCount = src0.startCount := by
  intro s hs src hsrc
  rcases List.mem_map.mp hs with ⟨s0, hs0, rfl⟩
  rcases hf s0 src hsrc with ⟨src0, h1, h2, h3⟩
  exact ⟨s0, hs0, src0, h1, h2, h3⟩

lemma stemClearAndStop_no_source (s : Stem) (src : Source) :
    (stemClearAndStop s).source = some src → False := by
  unfold stemClearAndStop
  cases h : s.source <;> simp [h]

lemma sourceInv_play (c : ℚ) (st : EngineState) (h : sourceInv st) :
    sourceInv (play c st) := by
  unfold play
  dsimp only
  unfold sourceInv ghostOnce liveInGhost
  constructor
  · exact startStems_ghost_once true st.currentTime _ st.nextId st.ghost h.1
  · refine startStems_live true st.currentTime _ st.nextId st.ghost ?_
    intro s0 hs0 src0 hsrc0
    rcases List.mem_map.mp hs0 with ⟨s1, _, rfl⟩
    exact absurd hsrc0 (fun hc => stemClearAndStop_no_source s1 src0 hc)

lemma sourceInv_scratchAt (p : ℚ) (st : EngineState) (h : sourceInv st) :
    sourceInv (scratchAt p st) := by
  unfold scratchAt
  dsimp only
  unfold sourceInv ghostOnce liveInGhost
  constructor
  · exact startStems_ghost_once false _ _ st.nextId st.ghost h.1
  · refine startStems_live false _ _ st.nextId st.ghost ?_
    intro s0 hs0 src0 hsrc0
    rcases List.mem_map.mp hs0 with ⟨s1, _, rfl⟩
    exact absurd hsrc0 (fun hc => stemClearAndStop_no_source s1 src0 hc)

lemma sourceInv_clearAll (st st' : EngineState) (hg : st'.ghost = st.ghost)
    (hstems : st'.stems = st.stems.map stemClearAndStop)
    (h : sourceInv st) : sourceInv st' := by
  refine sourceInv_of st st' hg ?_ h
  rw [hstems]
  exact sourceInv_map_aux st.stems stemClearAndStop
    (fun s src hsrc => absurd hsrc (fun hc => stemClearAndStop_no_source s src hc))

lemma sourceInv_handleStemEnded (name : String) (st : EngineState) (h : sourceInv st) :
    sourceInv (handleStemEnded name st) := by
  unfold handleStemEnded
  dsimp only
  have hmain : ∀ s ∈ mapStem st.stems name (fun s => { s with source := none }),
      ∀ src, s.source = some src →
      ∃ s0 ∈ st.stems, ∃ src0, s0.source = some src0 ∧ src.id = src0.id ∧
        src.startCount = src0.startCount := by
    refine sourceInv_map_aux st.stems _ ?_
    intro s src hsrc
    by_cases hn : s.name = name
    · rw [if_pos hn] at hsrc
      simp at hsrc
    · rw [if_neg hn] at hsrc
      exact ⟨src, hsrc, rfl, rfl⟩
  split
  · exact sourceInv_of st _ rfl hmain h
  · split
    · exact sourceInv_of st _ rfl hmain h
    · exact sourceInv_of st _ rfl hmain h

lemma sourceInv_updateSoloMuteStates (st : EngineState) (h : sourceInv st) :
    sourceInv (updateSoloMuteStates st) := by
  unfold updateSoloMuteStates
  dsimp only
  refine sourceInv_of st _ rfl ?_ h
  refine sourceInv_map_aux st.stems _ ?_
  intro s src hsrc
  cases hg : s.gainNode
  · rw [hg] at hsrc
    exact ⟨src, hsrc, rfl, rfl⟩
  · rw [hg] at hsrc
    dsimp only at hsrc
    exact ⟨src, hsrc, rfl, rfl⟩

/-- Every session event preserves the source-lifecycle invariant. -/
lemma sourceInv_step (o : Op) (st : EngineState) (h : sourceInv st) :
    sourceInv (step o st) := by
  cases o with
  | play c => exact sourceInv_play c st h
  | pause c =>
    simp only [step]
    unfold pause
    dsimp only
    split
    · exact sourceInv_clearAll st _ rfl rfl h
    · exact sourceInv_clearAll st _ rfl rfl h
  | stop =>
    simp only [step]
    refine sourceInv_of st _ rfl ?_ h
    unfold stopOp
    dsimp only
    refine sourceInv_map_aux st.stems _ ?_
    intro s src hsrc
    cases hg : s.source with
    | none => rw [hg] at hsrc; dsimp only at hsrc; rw [hg] at hsrc; exact Option.noConfusion hsrc
    | some src1 => rw [hg] at hsrc; simp at hsrc
  | seek p c =>
    simp only [step]
    unfold seekToPosition
    dsimp only
    split
    · refine sourceInv_play c _ ?_
      exact sourceInv_clearAll st _ rfl rfl h
    · exact sourceInv_clearAll st _ rfl rfl h
  | tick c =>
    simp only [step]
    unfold updatePlaybackPositions
    split
    · exact h
    · dsimp only
      split
      · refine sourceInv_of st _ rfl ?_ h
        unfold stopOp
        dsimp only
        refine sourceInv_map_aux st.stems _ ?_
        intro s src hsrc
        cases hg : s.source with
        | none => rw [hg] at hsrc; dsimp only at hsrc; rw [hg] at hsrc; exact Option.noConfusion hsrc
        | some src1 => rw [hg] at hsrc; simp at hsrc
      · exact sourceInv_of st _ rfl
          (fun s hs src hsrc => ⟨s, hs, src, hsrc, rfl, rfl⟩) h
  | scratchStart =>
    simp only [step]
    unfold startScratchMode
    dsimp only
    split
    · exact sourceInv_clearAll st _ rfl rfl h
    · exact sourceInv_of st _ rfl
        (fun s hs src hsrc => ⟨s, hs, src, hsrc, rfl, rfl⟩) h
  | scratch p => exact sourceInv_scratchAt p st h
  | scratchEnd =>
    exact sourceInv_of st _ rfl
      (fun s hs src hsrc => ⟨s, hs, src, hsrc, rfl, rfl⟩) h
  | segStop n =>
    simp only [step]
    refine sourceInv_of st _ rfl ?_ h
    unfold scratchSegmentStop
    dsimp only
    refine sourceInv_map_aux st.stems _ ?_
    intro s src hsrc
    by_cases hn : s.name = n
    · rw [if_pos hn] at hsrc
      dsimp only at hsrc
      cases hg : s.source with
      | none => rw [hg] at hsrc; dsimp only at hsrc; rw [hg] at hsrc; exact Option.noConfusion hsrc
      | some src1 =>
        rw [hg] at hsrc
        dsimp only at hsrc
        simp only [Option.some.injEq] at hsrc
        exact ⟨src1, rfl, by rw [← hsrc], by rw [← hsrc]⟩
    · rw [if_neg hn] at hsrc
      exact ⟨src, hsrc, rfl, rfl⟩
  | ended n =>
    simp only [step]
    unfold naturalEnd
    cases hfq : findStem st.stems n with
    | none => exact h
    | some sF =>
      dsimp only
      cases hsq : sF.source with
      | none => exact h
      | some srcB =>
        dsimp only
        by_cases hstop : srcB.stopped = true
        · rw [if_pos hstop]; exact h
        · rw [if_neg hstop]
          by_cases hend : srcB.onended = true
          · rw [if_pos hend]
            exact sourceInv_handleStemEnded n st h
          · rw [if_neg hend]
            refine sourceInv_of st _ rfl ?_ h
            have hmemF : sF ∈ st.stems := by
              unfold findStem at hfq
              exact List.mem_of_find?_eq_some hfq
            intro s hs src2 hsrc
            unfold mapStem at hs
            rcases List.mem_map.mp hs with ⟨t, ht, rfl⟩
            by_cases hn : t.name = n
            · rw [if_pos hn] at hsrc
              dsimp only at hsrc
              simp only [Option.some.injEq] at hsrc
              exact ⟨sF, hmemF, srcB, hsq, by rw [← hsrc], by rw [← hsrc]⟩
            · rw [if_neg hn] at hsrc
              exact ⟨t, ht, src2, hsrc, rfl, rfl⟩
  | flush n =>
    simp only [step]
    unfold flushEnded
    split
    · exact sourceInv_handleStemEnded n _
        (sourceInv_of st _ rfl (fun s hs src hsrc => ⟨s, hs, src, hsrc, rfl, rfl⟩) h)
    · exact h
  | solo n =>
    simp only [step]
    unfold toggleSolo
    split
    · exact h
    · refine sourceInv_updateSoloMuteStates _ ?_
      refine sourceInv_of st _ rfl ?_ h
      unfold mapStem
      refine sourceInv_map_aux st.stems _ ?_
      intro s src hsrc
      dsimp only at hsrc
      by_cases hn : s.name = n
      · rw [if_pos hn] at hsrc
        exact ⟨src, hsrc, rfl, rfl⟩
      · rw [if_neg hn] at hsrc
        exact ⟨src, hsrc, rfl, rfl⟩
  | mute n =>
    simp only [step]
    unfold toggleMute
    split
    · exact h
    · refine sourceInv_updateSoloMuteStates _ ?_
      refine sourceInv_of st _ rfl ?_ h
      unfold mapStem
      refine sourceInv_map_aux st.stems _ ?_
      intro s src hsrc
      dsimp only at hsrc
      by_cases hn : s.name = n
      · rw [if_pos hn] at hsrc
        exact ⟨src, hsrc, rfl, rfl⟩
      · rw [if_neg hn] at hsrc
        exact ⟨src, hsrc, rfl, rfl⟩
  | volume n v =>
    simp only [step]
    unfold updateVolume
    split
    · exact h
    · refine sourceInv_of st _ rfl ?_ h
      unfold mapStem
      refine sourceInv_map_aux st.stems _ ?_
      intro s src hsrc
      by_cases hn : s.name = n
      · rw [if_pos hn] at hsrc
        unfold updVolStem at hsrc
        dsimp only at hsrc
        cases hg : s.gainNode with
        | none =>
          rw [hg] at hsrc
          exact ⟨src, hsrc, rfl, rfl⟩
        | some g0 =>
          rw [hg] at hsrc
          dsimp only at hsrc
          by_cases hmm : s.muted = true
          · rw [if_pos hmm] at hsrc
            exact ⟨src, hsrc, rfl, rfl⟩
          · rw [if_neg hmm] at hsrc
            exact ⟨src, hsrc, rfl, rfl⟩
      · rw [if_neg hn] at hsrc
        exact ⟨src, hsrc, rfl, rfl⟩
  | load404 n =>
    simp only [step]
    refine sourceInv_of st _ rfl ?_ h
    unfold loadStem404 setStemEntry
    dsimp only
    split
    · refine sourceInv_map_aux st.stems _ ?_
      intro s src hsrc
      by_cases hn : s.name = (freshStem n).name
      · rw [if_pos hn] at hsrc
        simp [freshStem] at hsrc
      · rw [if_neg hn] at hsrc
        exact ⟨src, hsrc, rfl, rfl⟩
    · intro s hs src hsrc
      rcases List.mem_append.mp hs with h1 | h1
      · exact ⟨s, h1, src, hsrc, rfl, rfl⟩
      · rcases List.mem_singleton.mp h1 with rfl
        simp [freshStem] at hsrc
  | loadOk n d =>
    simp only [step]
    refine sourceInv_of st _ rfl ?_ h
    unfold loadStemOk
    dsimp only
    intro s hs src hsrc
    unfold mapStem at hs
    rcases List.mem_map.mp hs with ⟨s1, hs1, rfl⟩
    have hsrc1 : s1.source = some src := by
      by_cases hn : s1.name = n
      · rw [if_pos hn] at hsrc
        exact hsrc
      · rw [if_neg hn] at hsrc
        exact hsrc
    unfold setStemEntry at hs1
    split at hs1
    · rcases List.mem_map.mp hs1 with ⟨s2, hs2, rfl⟩
      by_cases hn2 : s2.name = (freshStem n).name
      · rw [if_pos hn2] at hsrc1
        simp [freshStem] at hsrc1
      · rw [if_neg hn2] at hsrc1
        exact ⟨s2, hs2, src, hsrc1, rfl, rfl⟩
    · rcases List.mem_append.mp hs1 with h1 | h1
      · exact ⟨s1, h1, src, hsrc1, rfl, rfl⟩
      · rcases List.mem_singleton.mp h1 with rfl
        simp [freshStem] at hsrc1
  | maxDur =>
    exact sourceInv_of st _ rfl
      (fun s hs src hsrc => ⟨s, hs, src, hsrc, rfl, rfl⟩) h
  | zinH =>
    exact sourceInv_of st _ rfl
      (fun s hs src hsrc => ⟨s, hs, src, hsrc, rfl, rfl⟩) h
  | zoutH =>
    exact sourceInv_of st _ rfl
      (fun s hs src hsrc => ⟨s, hs, src, hsrc, rfl, rfl⟩) h
  | zinV =>
    exact sourceInv_of st _ rfl
      (fun s hs src hsrc => ⟨s, hs, src, hsrc, rfl, rfl⟩) h
  | zoutV =>
    exact sourceInv_of st _ rfl
      (fun s hs src hsrc => ⟨s, hs, src, hsrc, rfl, rfl⟩) h
  | zreset =>
    exact sourceInv_of st _ rfl
      (fun s hs src hsrc => ⟨s, hs, src, hsrc, rfl, rfl⟩) h

lemma sourceInv_run : ∀ (ops : List Op) (st : EngineState),
    sourceInv st → sourceInv (run ops st)
  | [], _, h => h
  | o :: rest, st, h => sourceInv_run rest (step o st) (sourceInv_step o st h)

lemma sourceInv_init : sourceInv initState := by
  unfold sourceInv ghostOnce liveInGhost initState
  constructor
  · intro p hp
    simp at hp
  · intro s hs
    simp at hs

/-- The start loop applied to a swept stem list yields only sources that
have been started exactly once and are not stopped. -/
lemma startStems_fresh (handler : Bool) (t : ℚ) :
    ∀ (l : List Stem) (nid : Nat) (g : List (Nat × Nat)),
      (∀ s ∈ l, s.source = none) →
      ∀ s ∈ (startStems handler t l nid g).1, ∀ src, s.source = some src →
        src.startCount = 1 ∧ src.stopped = false := by
  intro l
  induction l with
  | nil => intro nid g _ s hs; rw [startStems] at hs; simp at hs
  | cons a l ih =>
    intro nid g hsrc0 s hs src hsrc
    by_cases hab : (a.active && a.buffer.isSome) = true
    · rw [startStems, if_pos hab] at hs
      dsimp only at hs
      rcases List.mem_cons.mp hs with h1 | h1
      · subst h1
        simp only [Option.some.injEq] at hsrc
        subst hsrc
        cases handler <;> simp [startSource, mkSource]
      · exact ih (nid + 1) _
          (fun s' hs' => hsrc0 s' (List.mem_cons_of_mem a hs')) s h1 src hsrc
    · rw [startStems, if_neg hab] at hs
      dsimp only at hs
      rcases List.mem_cons.mp hs with h1 | h1
      · subst h1
        exact absurd hsrc (by rw [hsrc0 s (List.mem_cons_self s l)]; simp)
      · exact ih nid g
          (fun s' hs' => hsrc0 s' (List.mem_cons_of_mem a hs')) s h1 src hsrc

/-- After `play`, every live source is a fresh one started exactly once. -/
lemma play_fresh (c : ℚ) (st : EngineState) :
    ∀ s ∈ (play c st).stems, ∀ src, s.source = some src →
      src.startCount = 1 ∧ src.stopped = false := by
  unfold play
  dsimp only
  exact startStems_fresh true st.currentTime _ st.nextId st.ghost (clearAll_source st.stems)

/-- After `scratchAt`, every live source is a fresh burst started exactly
once. -/
lemma scratchAt_fresh (p : ℚ) (st : EngineState) :
    ∀ s ∈ (scratchAt p st).stems, ∀ src, s.source = some src →
      src.startCount = 1 ∧ src.stopped = false := by
  unfold scratchAt
  dsimp only
  exact startStems_fresh false _ _ st.nextId st.ghost (clearAll_source st.stems)

/-- C3: the source lifecycle discipline.  Over every sequence of session
events from the initial state, every source ever created has been
started at most once (the ghost log never records a second start), and
the log accurately reflects every live source.  Moreover each transport
operation re-establishes a clean per-stem graph: after `play`, `seek`
and `scratch` every live source is a freshly created node started
exactly once and not yet stopped (any pre-existing source having first
been torn down and its reference nulled — each stem holds at most one
source reference throughout), and after `pause` and `stop` no stem holds
any source. -/
theorem source_single_start (ops : List Op) (st : EngineState) (c p p2 : ℚ) :
    (∀ q ∈ (run ops initState).ghost, q.2 ≤ 1) ∧
    (∀ s ∈ (run ops initState).stems, ∀ src, s.source = some src →
        (src.id, src.startCount) ∈ (run ops initState).ghost) ∧
    (∀ s ∈ (play c st).stems, ∀ src, s.source = some src →
        src.startCount = 1 ∧ src.stopped = false) ∧
    (∀ s ∈ (pause c st).stems, s.source = none) ∧
    (∀ s ∈ (stopOp st).stems, s.source = none) ∧
    (∀ s ∈ (seekToPosition p c st).stems, ∀ src, s.source = some src →
        src.startCount = 1 ∧ src.stopped = false) ∧
    (∀ s ∈ (scratchAt p2 st).stems, ∀ src, s.source = some src →
        src.startCount = 1 ∧ src.stopped = false) := by
  have hinv := sourceInv_run ops initState sourceInv_init
  refine ⟨hinv.1, hinv.2, play_fresh c st, ?_, ?_, ?_, scratchAt_fresh p2 st⟩
  · unfold pause
    dsimp only
    split
    · exact clearAll_source _
    · exact clearAll_source _
  · unfold stopOp
    dsimp only
    intro s hs
    rcases List.mem_map.mp hs with ⟨s0, _, rfl⟩
    cases h0 : s0.source <;> simp [h0]
  · unfold seekToPosition
    dsimp only
    split
    · exact play_fresh c _
    · intro s hs src hsrc
      exact absurd hsrc
        (by rw [clearAll_source st.stems s hs]; simp)

/-- Witness for C3: loading one stem and playing creates the single
source with id 0, started exactly once. -/
theorem source_single_start_witness :
    (0, 1) ∈ (run [Op.loadOk vocalsName 10, Op.play 0] initState).ghost ∧
    ((0 : Nat), (1 : Nat)).2 ≤ 1 :=
  ⟨by decide,
   (source_single_start [Op.loadOk vocalsName 10, Op.play 0] initState 0 0 0).1
     (0, 1) (by decide)⟩

end StemTube
